import Mathlib

/-!
# Verification of the matchwise resume/job analysis backend

Shallow embedding of the core components of the backend
(`src/backend/app/services/base_ai_service.py` and `src/backend/main.py`):

* the structured response parser `parse_structured_response`;
* the credential pool reload `_refresh_api_keys` and the completion
  gateway `get_completion` / `_try_model_completion`;
* the batch ranking rule (`is_best_match`) shared by `analyze_resumes`
  and `process_resumes_stream`;
* the progress stream emitter `process_resumes_stream`;
* the request validation of the three batch endpoints.

Python strings are modelled by Lean `String`; the Python string
operations used by the code are given explicit structurally recursive
definitions over the character list, so that every definition can be
evaluated by the kernel on concrete inputs.  Python floats are
modelled by `ℚ` (the numeric literals handled by the parser are finite
decimals, which embed exactly); Python `int(...)` of the non-negative
progress fractions by `ℕ` floor division.
-/

namespace Matchwise

/-! ## Python string primitives -/

/-- The whitespace characters recognised by Python `str.strip()`
(restricted to the ASCII range, which covers the strings the service
handles). -/
def pyIsSpace (c : Char) : Bool :=
  c = ' ' ∨ c = '\t' ∨ c = '\n' ∨ c = '\r' ∨ c = '\x0b' ∨ c = '\x0c'

/-- Python `s.strip()` on a character list. -/
def trimChars (l : List Char) : List Char :=
  ((l.dropWhile pyIsSpace).reverse.dropWhile pyIsSpace).reverse

/-- Python `s.strip()`. -/
def pyStrip (s : String) : String := ⟨trimChars s.data⟩

/-- Python `str.lower()` on one character (ASCII range). -/
def lowerChar (c : Char) : Char :=
  if 'A' ≤ c ∧ c ≤ 'Z' then Char.ofNat (c.toNat + 32) else c

/-- Python `s.lower()`. -/
def pyLower (s : String) : String := ⟨s.data.map lowerChar⟩

/-- Python `len(s)` (number of code points). -/
def pyLen (s : String) : ℕ := s.data.length

/-- Python `s.startswith(pre)`. -/
def pyStartsWith (s pre : String) : Bool := pre.data.isPrefixOf s.data

/-- Python `s.split(sep)` for a non-empty `sep`, scanning left to right
over non-overlapping occurrences.  The first argument is fuel, always
instantiated with the length of the input. -/
def splitOnChars (sep : List Char) : ℕ → List Char → List Char → List (List Char)
  | 0, rest, acc => [acc.reverse ++ rest]
  | fuel + 1, s, acc =>
    match s with
    | [] => [acc.reverse]
    | c :: cs =>
      if sep.isPrefixOf (c :: cs) then
        acc.reverse :: splitOnChars sep fuel (List.drop sep.length (c :: cs)) []
      else
        splitOnChars sep fuel cs (c :: acc)

/-- Python `s.split(sep)` (for a non-empty separator). -/
def pySplitOn (s sep : String) : List String :=
  (splitOnChars sep.data s.data.length s.data []).map String.mk

/-- Python `sub in s` substring test (for a non-empty `sub`). -/
def pyContains (s sub : String) : Bool :=
  (pySplitOn s sub).length != 1

/-- Python `s.replace(pat, rep)` on character lists: replace every
non-overlapping occurrence, scanning left to right.  The first
argument is fuel, always instantiated with the length of the input. -/
def replaceChars (pat rep : List Char) : ℕ → List Char → List Char
  | 0, rest => rest
  | fuel + 1, s =>
    match s with
    | [] => []
    | c :: cs =>
      if pat.isPrefixOf (c :: cs) then
        rep ++ replaceChars pat rep fuel (List.drop pat.length (c :: cs))
      else
        c :: replaceChars pat rep fuel cs

/-- Python `s.replace(pat, rep)` (for a non-empty pattern). -/
def pyReplace (s pat rep : String) : String :=
  ⟨replaceChars pat.data rep.data s.data.length s.data⟩

/-- Python `s.split(":", 1)[1]`: everything after the first colon.
Returns `""` when the string has no colon (the code only reaches the
split when the line is known to contain one). -/
def afterFirstColon (s : String) : String :=
  ⟨(s.data.dropWhile (fun c => c ≠ ':')).tail⟩

/-! ## Python `float(...)` on finite decimal literals

`float` accepts an optionally signed decimal mantissa with optional
exponent, surrounded by whitespace.  (The exotic forms `inf`, `nan`,
underscore separators and hex floats never arise from the values the
service handles and are not modelled; on those inputs this parser
returns `none`.) -/

/-- Digit value of a decimal digit character. -/
def digitVal (c : Char) : ℕ := c.toNat - 48

/-- Read a maximal run of decimal digits, returning the accumulated
value, the number of digits read, and the rest of the input. -/
def readDigits : List Char → ℕ → ℕ → ℕ × ℕ × List Char
  | [], acc, cnt => (acc, cnt, [])
  | c :: cs, acc, cnt =>
    if c.isDigit then readDigits cs (10 * acc + digitVal c) (cnt + 1)
    else (acc, cnt, c :: cs)

/-- Parse an unsigned decimal mantissa `digits [. digits]` (at least one
digit overall), returning the mantissa read as an integer, the number of
fraction digits, and the rest of the input. -/
def parseMantissa (cs : List Char) : Option (ℕ × ℕ × List Char) :=
  let (ipart, icnt, r1) := readDigits cs 0 0
  match r1 with
  | '.' :: t =>
    let (f, fcnt, r2) := readDigits t 0 0
    if icnt + fcnt = 0 then none else some (ipart * 10 ^ fcnt + f, fcnt, r2)
  | _ => if icnt = 0 then none else some (ipart, 0, r1)

/-- Parse an optional exponent suffix `[eE][+-]?digits` making up the
whole rest of the literal; returns the exponent sign and magnitude. -/
def parseExponent : List Char → Option (Bool × ℕ)
  | [] => some (false, 0)
  | e :: t =>
    if e = 'e' ∨ e = 'E' then
      let (eneg, t2) : Bool × List Char :=
        match t with
        | '+' :: u => (false, u)
        | '-' :: u => (true, u)
        | u => (false, u)
      let (ev, ecnt, r3) := readDigits t2 0 0
      if ecnt = 0 ∨ r3 ≠ [] then none else some (eneg, ev)
    else none

/-- Python `float(s)` restricted to finite decimal literals.  The value
`± m / 10^fcnt * 10^±ev` is assembled with one normalising `mkRat`. -/
def pyFloat (s : String) : Option ℚ :=
  let (neg, cs) : Bool × List Char :=
    match trimChars s.data with
    | '+' :: r => (false, r)
    | '-' :: r => (true, r)
    | r => (false, r)
  match parseMantissa cs with
  | none => none
  | some (m, fcnt, rest) =>
    match parseExponent rest with
    | none => none
    | some (eneg, ev) =>
      let mval : ℕ := m * 10 ^ (if eneg then 0 else ev)
      let den : ℕ := 10 ^ fcnt * 10 ^ (if eneg then ev else 0)
      some (mkRat (if neg then -(mval : ℤ) else (mval : ℤ)) den)

/-! ## Structured response parser (`parse_structured_response`) -/

/-- Values stored in the parsed dictionary: the `Score` branch stores a
number, the `Missing Skills` branch a list, every other key a string. -/
inductive PValue where
  | num (q : ℚ)
  | list (l : List String)
  | str (s : String)
deriving DecidableEq, Repr

/-- Python dict assignment `d[k] = v` on an insertion-ordered
association list with unique keys: overwrite in place, else append. -/
def pyDictInsert : List (String × PValue) → String → PValue → List (String × PValue)
  | [], k, v => [(k, v)]
  | p :: rest, k, v =>
    if p.1 = k then (k, v) :: rest else p :: pyDictInsert rest k v

/-- Python `d[k]` lookup. -/
def pyDictGet : List (String × PValue) → String → Option PValue
  | [], _ => none
  | p :: rest, k => if p.1 = k then some p.2 else pyDictGet rest k

/-- Python `k in d` membership test. -/
def pyDictHas (d : List (String × PValue)) (k : String) : Bool :=
  (pyDictGet d k).isSome

/-- The first line of `result` whose trimmed content starts with
`"<key>:"`, with everything after the first colon taken and stripped
(lines 313-316 of `base_ai_service.py`). -/
def extractValue (result : String) (key : String) : Option String :=
  match (pySplitOn result "\n").filter
      (fun line => pyStartsWith (pyStrip line) (key ++ ":")) with
  | [] => none
  | line :: _ => some (pyStrip (afterFirstColon line))

/-- Python `max(a, b)` on numbers. -/
def pyMax (a b : ℚ) : ℚ := if a ≤ b then b else a

/-- Python `min(a, b)` on numbers. -/
def pyMin (a b : ℚ) : ℚ := if b ≤ a then b else a

/-- The `Score` branch: remove every `%`, strip, parse as float, clamp
into `[0, 100]`; default `0` when the parse fails (lines 318-325). -/
def scoreOfValue (value : String) : ℚ :=
  match pyFloat (pyStrip (pyReplace value "%" "")) with
  | some score => pyMin 100 (pyMax 0 score)
  | none => 0

/-- Whole-value sentinels of the `Missing Skills` branch (line 329). -/
def sentinelValues : List String := ["[]", "none", "n/a", "-", "", "no missing skills"]

/-- Token sentinels filtered out after splitting (line 340). -/
def tokenSentinels : List String := ["none", "n/a"]

/-- Separators tried in priority order (line 333). -/
def separators : List String := [",", ";", "\n", "•", "-"]

/-- Split on one separator, strip each token, and keep the tokens that
are non-empty, not a token sentinel, and longer than one character
(lines 336-342). -/
def splitClean (value sep : String) : List String :=
  (pySplitOn value sep).filterMap (fun skill =>
    let t := pyStrip skill
    if t ≠ "" ∧ pyLower t ∉ tokenSentinels ∧ 1 < pyLen t then some t else none)

/-- First separator (in priority order) occurring in the value. -/
def firstSeparator (value : String) : Option String :=
  separators.find? (fun sep => pyContains value sep)

/-- The `Missing Skills` branch (lines 327-347). -/
def missingSkillsOf (value : String) : List String :=
  if pyLower (pyStrip value) ∈ sentinelValues then []
  else
    match firstSeparator value with
    | some sep => splitClean value sep
    | none => if pyStrip value ≠ "" then [pyStrip value] else []

/-- One iteration of the `for key in keys` loop of
`parse_structured_response` (lines 313-350). -/
def parseStep (result : String) (parsed : List (String × PValue)) (key : String) :
    List (String × PValue) :=
  match extractValue result key with
  | none => parsed
  | some value =>
    if key = "Score" then
      pyDictInsert parsed "score" (.num (scoreOfValue value))
    else if key = "Missing Skills" then
      pyDictInsert parsed "missing_skills" (.list (missingSkillsOf value))
    else
      pyDictInsert parsed (pyLower key) (.str (pyStrip value))

/-- Placeholder installed when `remarks` was requested but absent. -/
def remarksDefault : String :=
  "Unable to determine specific skill gaps from the provided information."

/-- The defaulting steps of `parse_structured_response` (lines 352-358):
`score`, `missing_skills` and `remarks` are installed with default
values when absent. -/
def applyDefaults (parsed : List (String × PValue)) : List (String × PValue) :=
  let parsed :=
    if pyDictHas parsed "score" then parsed
    else pyDictInsert parsed "score" (.num 0)
  let parsed :=
    if pyDictHas parsed "missing_skills" then parsed
    else pyDictInsert parsed "missing_skills" (.list [])
  if pyDictHas parsed "remarks" then parsed
  else pyDictInsert parsed "remarks" (.str remarksDefault)

/-- `parse_structured_response(result, keys)` (lines 308-360): the key
loop followed by the three defaulting steps. -/
def parseStructuredResponse (result : String) (keys : List String) :
    List (String × PValue) :=
  applyDefaults (keys.foldl (parseStep result) [])

/-- The score the parser associates with a response text: the parsed
`Score` line, or `0` when the line is absent. -/
def scoreValueOf (result : String) : ℚ :=
  match extractValue result "Score" with
  | some v => scoreOfValue v
  | none => 0

/-- The missing-skill list the parser associates with a response text:
the parsed `Missing Skills` line, or `[]` when the line is absent. -/
def missingValueOf (result : String) : List String :=
  match extractValue result "Missing Skills" with
  | some v => missingSkillsOf v
  | none => []

/-- Reading of claim C4 as written: strip a single trailing `%` (rather
than removing every `%`), parse, clamp, default `0`.  Stated from the
claim for comparison with `scoreOfValue`. -/
def scoreSpecTrailingPercent (value : String) : ℚ :=
  let v : String :=
    if value.data.getLast? = some '%' then ⟨value.data.dropLast⟩ else value
  match pyFloat v with
  | some score => pyMin 100 (pyMax 0 score)
  | none => 0

/-! ## Credential pool reload (`_refresh_api_keys`, lines 48-104)

The mutable pool state is the key list and the current index.  Reading
the credential sources (the `.env` file and the process environment) is
an external effect, modelled by a `ReadOutcome` input: either the read
raised, or it produced the two sources, each an indexed sequence of
optional values for `GROQ_API_KEY_1`, `GROQ_API_KEY_2`, ... -/

/-- Pool state: the in-memory key list and the current key index. -/
structure PoolState where
  apiKeys : List String
  currentKeyIndex : ℕ
deriving DecidableEq, Repr

/-- Outcome of reading the credential sources. -/
inductive ReadOutcome where
  | raises (e : String)
  | ok (envFile : Option (List (Option String))) (sysEnv : List (Option String))

/-- The `while True` collection loop (lines 63-69 and 76-82): keys are
taken in order `GROQ_API_KEY_1`, `_2`, ... until the first missing or
falsy value. -/
def collectKeys : List (Option String) → List String
  | [] => []
  | none :: _ => []
  | some k :: rest => if k = "" then [] else k :: collectKeys rest

/-- The key list obtained by a successful read: the `.env` file first,
falling back to the environment variables when that yields nothing. -/
def keysRead (envFile : Option (List (Option String))) (sysEnv : List (Option String)) :
    List String :=
  let keys := match envFile with
    | some vals => collectKeys vals
    | none => []
  if keys = [] then collectKeys sysEnv else keys

/-- `_refresh_api_keys` (lines 48-104): raise when the read raised or
yielded no keys; otherwise replace the key set and clamp the index. -/
def refreshApiKeys (ro : ReadOutcome) (s : PoolState) : Except String PoolState :=
  match ro with
  | .raises e => .error e
  | .ok envFile sysEnv =>
    let keys := keysRead envFile sysEnv
    if keys = [] then .error "No API keys found in .env file or environment variables"
    else
      .ok { apiKeys := keys,
            currentKeyIndex :=
              if s.currentKeyIndex ≥ keys.length then 0 else s.currentKeyIndex }

/-- The reload as invoked from `get_completion` (lines 270-275): a
failure is caught, a warning logged, and the previous state kept. -/
def refreshFromGetCompletion (ro : ReadOutcome) (s : PoolState) : PoolState :=
  match refreshApiKeys ro s with
  | .ok s2 => s2
  | .error _ => s

/-! ## Completion gateway (`_try_model_completion` and `get_completion`)

The transport call is an external effect, modelled by an oracle giving
the outcome of the attempt made in retry cycle `c` with the `k`-th key
tried in that cycle: a completion text, a timeout, or an exception
message.  Exception messages are classified by the same case-insensitive
substring matching as lines 187-228 of `base_ai_service.py`. -/

/-- The model list tried in order of preference (lines 12-18). -/
def MODELS : List String :=
  ["llama-3.3-70b-versatile", "llama-3.1-8b-instant", "openai/gpt-oss-120b",
   "openai/gpt-oss-20b", "meta-llama/llama-guard-4-12b"]

/-- Outcome of one `(cycle, key)` completion attempt. -/
inductive CallOutcome where
  | ok (text : String)
  | timeout
  | exn (msg : String)

/-- The four error classes distinguished by lines 187-228. -/
inductive ErrClass where
  | rateLimit
  | keyError
  | modelError
  | otherError
deriving DecidableEq, Repr

/-- Substring classification of an exception message (lines 187-228). -/
def classifyError (e : String) : ErrClass :=
  let s := pyLower e
  if pyContains s "rate limit" || pyContains s "429" ||
      pyContains s "tokens per day" || pyContains s "tpd" then .rateLimit
  else if pyContains s "quota exceeded" || pyContains s "invalid api key" ||
      pyContains s "authorization" || pyContains s "authenticate" ||
      pyContains s "forbidden" || pyContains s "401" || pyContains s "403" then .keyError
  else if pyContains s "model" || pyContains s "not found" ||
      pyContains s "does not exist" || pyContains s "not available" then .modelError
  else .otherError

/-- Result of the inner `for key_attempt in range(len(keys))` loop. -/
inductive InnerOut where
  | retText (t : String) (keyIndex : ℕ)
  | modelAbort
  | done (rlCount : ℕ)

/-- The inner key loop of `_try_model_completion` (lines 158-228):
`k` is the next `key_attempt`, `rl` the running `rate_limited_count`,
and the first argument the number of remaining attempts. -/
def tryKeysLoop (g : ℕ → ℕ → CallOutcome) (numKeys original cycle maxRetry : ℕ) :
    ℕ → ℕ → ℕ → InnerOut
  | 0, _, rl => .done rl
  | n + 1, k, rl =>
    let ki := (original + k) % numKeys
    match g cycle k with
    | .ok t => .retText t ki
    | .timeout => tryKeysLoop g numKeys original cycle maxRetry n (k + 1) rl
    | .exn e =>
      match classifyError e with
      | .rateLimit =>
        if rl + 1 ≥ numKeys ∧ cycle < maxRetry - 1 then .done (rl + 1)
        else tryKeysLoop g numKeys original cycle maxRetry n (k + 1) (rl + 1)
      | .keyError => tryKeysLoop g numKeys original cycle maxRetry n (k + 1) rl
      | .modelError => .modelAbort
      | .otherError => tryKeysLoop g numKeys original cycle maxRetry n (k + 1) rl

/-- The outer retry-cycle loop of `_try_model_completion` (lines
149-247), returning the completion text (if any) together with the
`_current_key_index` left in the pool state. -/
def tryCyclesLoop (g : ℕ → ℕ → CallOutcome) (numKeys maxRetry original : ℕ) :
    ℕ → ℕ → Option String × ℕ
  | 0, _ => (none, original)
  | c + 1, cycle =>
    match tryKeysLoop g numKeys original cycle maxRetry numKeys 0 0 with
    | .retText t ki => (some t, ki)
    | .modelAbort => (none, original)
    | .done rl =>
      if rl ≥ numKeys ∧ cycle < maxRetry - 1 then
        tryCyclesLoop g numKeys maxRetry original c (cycle + 1)
      else (none, original)

/-- `_try_model_completion` (lines 132-247) with `max_retry_attempts`
cycles, starting from the stored `_current_key_index` `original`. -/
def tryModelCompletion (g : ℕ → ℕ → CallOutcome) (numKeys maxRetry original : ℕ) :
    Option String × ℕ :=
  tryCyclesLoop g numKeys maxRetry original maxRetry 0

/-- Outcome of one whole-model attempt as seen by the loop of
`get_completion`: a returned text, a `None` return, or an exception. -/
inductive ModelOutcome where
  | ok (t : String)
  | failNone
  | raises (e : String)

/-- The data carried by the exception raised when every model is
exhausted (lines 301-306): the model count in the message and the last
underlying error appended to it when one was caught. -/
structure ExhaustionError where
  modelCount : ℕ
  lastError : Option String
deriving DecidableEq, Repr

/-- The `for model in MODELS` loop of `get_completion` (lines 286-306),
threading `last_error`.  A returned text is only accepted when truthy
(non-empty): `if result:`. -/
def getCompletionLoop (f : String → ModelOutcome) :
    List String → Option String → Except ExhaustionError String
  | [], last => .error ⟨MODELS.length, last⟩
  | m :: rest, last =>
    match f m with
    | .ok t => if t ≠ "" then .ok t else getCompletionLoop f rest last
    | .failNone => getCompletionLoop f rest last
    | .raises e => getCompletionLoop f rest (some e)

/-- `get_completion` over the fixed model list. -/
def getCompletion (f : String → ModelOutcome) : Except ExhaustionError String :=
  getCompletionLoop f MODELS none

/-- The last exception raised across a traversal of the model list. -/
def lastRaised (f : String → ModelOutcome) (ms : List String) : Option String :=
  ms.foldl (fun acc m => match f m with | .raises e => some e | _ => acc) none

/-! ## Batch records and the ranking rule

`analyze_resumes` (lines 694-730 of `main.py`) and
`process_resumes_stream` (lines 455-497) run the identical ranking
computation over the accumulated per-item result dictionaries. -/

/-- A per-item result dictionary.  Optional fields are the keys that
may be absent from the Python dict. -/
structure ResultRecord where
  filename : String
  error : Option String
  score : ℚ
  missing_skills : List String
  remarks : String
  is_best_match : Option Bool
  email : Option String
  email_type : Option String
  email_error : Option String
deriving DecidableEq, Repr

/-- `[r for r in results if "error" not in r]` (line 456 / 695). -/
def successfulOf (rs : List ResultRecord) : List ResultRecord :=
  rs.filter (fun r => r.error.isNone)

/-- One insertion step of the descending-by-score sort. -/
def insertByScore (r : ResultRecord) : List ResultRecord → List ResultRecord
  | [] => [r]
  | x :: xs => if decide (x.score ≤ r.score) then r :: x :: xs else x :: insertByScore r xs

/-- `successful_results.sort(key=..., reverse=True)` (line 458 / 698):
sort descending by score (the order never influences the outputs, but
the embedding keeps the step). -/
def sortByScoreDesc (l : List ResultRecord) : List ResultRecord :=
  l.foldr insertByScore []

/-- Python `max` over a list of scores (`None` when empty, where Python
would raise). -/
def pyMaxList : List ℚ → Option ℚ
  | [] => none
  | x :: xs => some (xs.foldl pyMax x)

/-- Python `min` over a list of counts (`None` when empty). -/
def pyMinList : List ℕ → Option ℕ
  | [] => none
  | x :: xs => some (xs.foldl Nat.min x)

/-- `is_acceptable` (lines 477-480 / 705-708): score at least the
minimum and missing-skill count at most the maximum. -/
def isAcceptable (minS : ℚ) (maxM : ℕ) (r : ResultRecord) : Bool :=
  decide (minS ≤ r.score) && decide (r.missing_skills.length ≤ maxM)

/-- `best_score = max(r["score"] for r in successful_results if "error"
not in r)` (line 483 / 712). -/
def bestScoreOf (succ : List ResultRecord) : Option ℚ :=
  pyMaxList (((succ.filter (fun r => r.error.isNone)).map (fun r => r.score)))

/-- `candidates_with_best_score` (lines 484-487 / 713-716). -/
def candidatesWithBestScore (succ : List ResultRecord) (best : ℚ) : List ResultRecord :=
  succ.filter (fun r => r.error.isNone && decide (r.score = best))

/-- `min_missing_skills` (lines 488-491 / 717-720). -/
def minMissingOf (succ : List ResultRecord) (best : ℚ) : Option ℕ :=
  pyMinList ((candidatesWithBestScore succ best).map (fun r => r.missing_skills.length))

/-- `result["is_best_match"]` (lines 493-497 / 726-730): acceptable,
top score, and fewest missing skills among the top scorers.  The
`none` fallbacks are unreachable under the `if successful_results:`
guard. -/
def bestMatchFlag (succ : List ResultRecord) (minS : ℚ) (maxM : ℕ) (r : ResultRecord) :
    Bool :=
  match bestScoreOf succ with
  | none => false
  | some best =>
    match minMissingOf succ best with
    | none => false
    | some minMiss =>
      isAcceptable minS maxM r && decide (r.score = best) &&
        decide (r.missing_skills.length = minMiss)

/-! ## Progress stream emitter (`process_resumes_stream`, lines 384-553)

Per item, the text extraction and analysis are external effects whose
outcome is part of the input: extraction may raise, the analysis may
raise, or the analysis yields a parsed record.  Likewise email
generation per successful item may yield a text or raise. -/

/-- A parsed analysis record (the dict produced by `analyze_resume`). -/
structure Analysis where
  score : ℚ
  missing_skills : List String
  remarks : String
deriving DecidableEq, Repr

/-- Outcome of handling one resume inside the item loop. -/
inductive ItemOutcome where
  | extractFail (e : String)
  | analyzeFail (e : String)
  | analyzed (a : Analysis)
deriving DecidableEq, Repr

/-- One resume of the batch, with the externally determined outcome of
its processing. -/
structure ResumeItem where
  filename : String
  outcome : ItemOutcome
deriving DecidableEq, Repr

/-- Event type tag of the emitted JSON objects. -/
inductive EvType where
  | progress
  | complete
  | error
deriving DecidableEq, Repr

/-- One emitted server-sent event: the fields of the JSON object, with
`none` for keys absent from the object. -/
structure Event where
  etype : EvType
  status : Option String
  current : Option ℕ
  total : Option ℕ
  filename : Option String
  percentage : Option ℕ
  errorMsg : Option String
  result : Option ResultRecord
  results : Option (List ResultRecord)
deriving DecidableEq, Repr

/-- The result record appended for one item (lines 425-429 success,
lines 440-447 failure): a failure degrades to score `0`, no missing
skills, and a fixed remark. -/
def itemRecord (it : ResumeItem) : ResultRecord :=
  match it.outcome with
  | .analyzed a =>
    { filename := it.filename, error := none, score := a.score,
      missing_skills := a.missing_skills, remarks := a.remarks,
      is_best_match := none, email := none, email_type := none, email_error := none }
  | .extractFail e =>
    { filename := it.filename, error := some e, score := 0, missing_skills := [],
      remarks := "Error processing resume",
      is_best_match := none, email := none, email_type := none, email_error := none }
  | .analyzeFail e =>
    { filename := it.filename, error := some e, score := 0, missing_skills := [],
      remarks := "Error processing resume",
      is_best_match := none, email := none, email_type := none, email_error := none }

/-- The events emitted while handling item `i` of `n` (lines 395-453).
The `progress` dict is mutated in place, so later events keep the
fields of earlier ones; an error event keeps the percentage last set
before the failure. -/
def itemEvents (n i : ℕ) (it : ResumeItem) : List Event :=
  let pPct := i * 90 / n
  let aPct := (2 * i + 1) * 45 / n
  let dPct := (i + 1) * 90 / n
  let base : Event :=
    { etype := .progress, status := some "processing", current := some (i + 1),
      total := some n, filename := some it.filename, percentage := some pPct,
      errorMsg := none, result := none, results := none }
  match it.outcome with
  | .extractFail e =>
    [base,
     { base with
        status := some "error", errorMsg := some e,
        result := some (itemRecord it) }]
  | .analyzeFail e =>
    [base,
     { base with status := some "analyzing", percentage := some aPct },
     { base with
        status := some "error", percentage := some aPct,
        errorMsg := some e, result := some (itemRecord it) }]
  | .analyzed _ =>
    [base,
     { base with status := some "analyzing", percentage := some aPct },
     { base with
        status := some "analyzed", percentage := some dPct,
        result := some (itemRecord it) }]

/-- The item loop (lines 395-453): `i` is the running index. -/
def phase1Events (n : ℕ) : ℕ → List ResumeItem → List Event
  | _, [] => []
  | i, it :: rest => itemEvents n i it ++ phase1Events n (i + 1) rest

/-- The annotation applied to the record at position `j` during the
email loop (lines 465-535): best-match flag first, then the email, with
an email failure recorded as `email_error` only. -/
def annotateRecord (succ : List ResultRecord) (minS : ℚ) (maxM : ℕ)
    (emailG : ℕ → Bool → Except String String) (j : ℕ) (r : ResultRecord) : ResultRecord :=
  if r.error.isSome then r
  else
    let acc := isAcceptable minS maxM r
    let r2 := { r with is_best_match := some (bestMatchFlag succ minS maxM r) }
    match emailG j acc with
    | .ok content =>
      { r2 with
          email := some content,
          email_type := some (if acc then "acceptance" else "rejection") }
    | .error e => { r2 with email_error := some e }

/-- The email loop over `enumerate(results)` applied to the records. -/
def annotateAll (succ : List ResultRecord) (minS : ℚ) (maxM : ℕ)
    (emailG : ℕ → Bool → Except String String) : ℕ → List ResultRecord → List ResultRecord
  | _, [] => []
  | j, r :: rest =>
    annotateRecord succ minS maxM emailG j r ::
      annotateAll succ minS maxM emailG (j + 1) rest

/-- The events of the email loop (lines 461-535): two per successful
record, none for error records. -/
def phase2Events (succ : List ResultRecord) (n : ℕ) (minS : ℚ) (maxM : ℕ)
    (emailG : ℕ → Bool → Except String String) : ℕ → List ResultRecord → List Event
  | _, [] => []
  | j, r :: rest =>
    (if r.error.isSome then []
     else
      [{ etype := .progress, status := some "generating_email", current := none,
         total := none, filename := some r.filename, percentage := some (90 + j * 10 / n),
         errorMsg := none, result := none, results := none },
       { etype := .progress, status := some "complete", current := none,
         total := none, filename := some r.filename,
         percentage := some (90 + (j + 1) * 10 / n), errorMsg := none,
         result := some (annotateRecord succ minS maxM emailG j r), results := none }]) ++
      phase2Events succ n minS maxM emailG (j + 1) rest

/-- The final result list of the batch: the per-item records, annotated
by the email loop when at least one succeeded (lines 455-535). -/
def finalResults (items : List ResumeItem) (minS : ℚ) (maxM : ℕ)
    (emailG : ℕ → Bool → Except String String) : List ResultRecord :=
  let recs := items.map itemRecord
  let succ := sortByScoreDesc (successfulOf recs)
  if succ.isEmpty then recs else annotateAll succ minS maxM emailG 0 recs

/-- The terminal event (lines 537-544). -/
def completeEvent (res : List ResultRecord) : Event :=
  { etype := .complete, status := none, current := none, total := none,
    filename := none, percentage := some 100, errorMsg := none, result := none,
    results := some res }

/-- The full event sequence of `process_resumes_stream` over a batch. -/
def streamEvents (items : List ResumeItem) (minS : ℚ) (maxM : ℕ)
    (emailG : ℕ → Bool → Except String String) : List Event :=
  let recs := items.map itemRecord
  let succ := sortByScoreDesc (successfulOf recs)
  phase1Events items.length 0 items ++
    (if succ.isEmpty then [] else phase2Events succ items.length minS maxM emailG 0 recs) ++
    [completeEvent (finalResults items minS maxM emailG)]

/-! ## Endpoint request validation (`main.py` lines 555-659, 957-1043) -/

/-- Python `s.endswith(suf)`. -/
def pyEndsWith (s suf : String) : Bool := suf.data.isSuffixOf s.data

/-- An uploaded file as far as validation observes it. -/
structure UploadFileStub where
  filename : String
  size : ℕ
deriving DecidableEq, Repr

/-- `filename.lower().endswith((".pdf", ".doc", ".docx"))`. -/
def validExtension (name : String) : Bool :=
  pyEndsWith (pyLower name) ".pdf" || pyEndsWith (pyLower name) ".doc" ||
    pyEndsWith (pyLower name) ".docx"

/-- `MAX_FILE_SIZE` (line 642). -/
def MAX_FILE_SIZE : ℕ := 10 * 1024 * 1024

/-- `not job_description or len(job_description.strip()) < 50`. -/
def jdTooShort (jd : String) : Bool := jd = "" || pyLen (pyStrip jd) < 50

/-- The per-file format and size loop of `analyze_resumes`
(lines 643-658). -/
def checkResumeFiles : List UploadFileStub → Except (ℕ × String) Unit
  | [] => .ok ()
  | r :: rest =>
    if !validExtension r.filename then
      .error (400, "Invalid file format for " ++ r.filename ++ ". Must be PDF or DOC/DOCX")
    else if decide (r.size > MAX_FILE_SIZE) then
      .error (400, "File " ++ r.filename ++ " exceeds maximum size of 10MB")
    else checkResumeFiles rest

/-- The second (redundant) format-only loop (lines 661-666). -/
def checkResumeExtensions : List UploadFileStub → Except (ℕ × String) Unit
  | [] => .ok ()
  | r :: rest =>
    if !validExtension r.filename then
      .error (400, "Invalid file format for " ++ r.filename ++ ". Must be PDF or DOC/DOCX")
    else checkResumeExtensions rest

/-- Validation of `analyze_resumes_stream` (lines 566-584): the batch
passed on to `process_resumes_stream` or an HTTP error. -/
def analyzeResumesStreamValidate (jd : String) (resumes : List UploadFileStub) :
    Except (ℕ × String) (List UploadFileStub) :=
  if jdTooShort jd then
    .error (400, "Job description is required and must be at least 50 characters long")
  else if resumes = [] then .error (400, "No resumes provided")
  else if decide (resumes.length > 10) then .error (400, "Maximum 10 resumes allowed")
  else .ok resumes

/-- Validation of `analyze_resumes` (lines 621-666): the batch passed
on to the analysis loop or an HTTP error. -/
def analyzeResumesValidate (jd : String) (resumes : List UploadFileStub) :
    Except (ℕ × String) (List UploadFileStub) :=
  if jdTooShort jd then
    .error (400, "Job description is required and must be at least 50 characters long")
  else if resumes = [] then .error (400, "No resumes provided")
  else if decide (resumes.length > 10) then .error (400, "Maximum 10 resumes allowed")
  else
    match checkResumeFiles resumes with
    | .error err => .error err
    | .ok _ =>
      match checkResumeExtensions resumes with
      | .error err => .error err
      | .ok _ => .ok resumes

/-- One collected job description of the candidate-mode endpoint. -/
structure JobDescriptionInput where
  source : String
  text : String
  company_name : String
deriving DecidableEq, Repr

/-- `company_names[idx]` when the list is truthy and long enough, the
default otherwise. -/
def companyAt (companyNames : Option (List String)) (idx : ℕ) (dflt : String) : String :=
  match companyNames with
  | none => dflt
  | some l => l.getD idx dflt

/-- Collection of the text-based job descriptions (lines 997-1005):
entries that are falsy or shorter than 50 characters when stripped are
dropped. -/
def collectTextJobs (companyNames : Option (List String)) :
    ℕ → List String → List JobDescriptionInput
  | _, [] => []
  | idx, t :: rest =>
    (if t ≠ "" ∧ 50 ≤ pyLen (pyStrip t) then
      [{ source := "text_job_" ++ toString (idx + 1), text := t,
         company_name := companyAt companyNames idx ("Company " ++ toString (idx + 1)) }]
     else []) ++ collectTextJobs companyNames (idx + 1) rest

/-- Collection of the file-based job descriptions (lines 1008-1020):
an extraction failure is logged and the file skipped; short or empty
texts are dropped. -/
def collectFileJobs (fileText : ℕ → Except String String)
    (companyNames : Option (List String)) (nTexts : ℕ) :
    ℕ → List UploadFileStub → List JobDescriptionInput
  | _, [] => []
  | idx, f :: rest =>
    (match fileText idx with
     | .error _ => []
     | .ok t =>
       if t ≠ "" ∧ 50 ≤ pyLen (pyStrip t) then
         [{ source := f.filename, text := t,
            company_name := companyAt companyNames (idx + nTexts) f.filename }]
       else []) ++ collectFileJobs fileText companyNames nTexts (idx + 1) rest

/-- The whole collected `job_descriptions` list (lines 993-1031):
text-based entries first, then file-based ones; URL-based inputs are
ignored by the source (lines 1022-1031). -/
def collectedJobs (jobTexts : Option (List String)) (jobFiles : Option (List UploadFileStub))
    (fileText : ℕ → Except String String) (companyNames : Option (List String)) :
    List JobDescriptionInput :=
  let nTexts := match jobTexts with
    | some ts => ts.length
    | none => 0
  (match jobTexts with
   | some ts => collectTextJobs companyNames 0 ts
   | none => []) ++
  (match jobFiles with
   | some fs => collectFileJobs fileText companyNames nTexts 0 fs
   | none => [])

/-- Validation and collection of `analyze_jobs_stream` (lines 971-1043):
the collected batch passed on to `process_jobs_stream` or an HTTP
error. -/
def analyzeJobsStreamValidate (resumeText : Except String String)
    (jobTexts : Option (List String)) (jobFiles : Option (List UploadFileStub))
    (fileText : ℕ → Except String String) (companyNames : Option (List String)) :
    Except (ℕ × String) (List JobDescriptionInput) :=
  match resumeText with
  | .error e => .error (400, "Failed to process resume: " ++ e)
  | .ok t =>
    if t = "" ∨ pyLen (pyStrip t) < 100 then
      .error (400, "Failed to process resume: 400: Resume content is too short or empty")
    else
      let jds := collectedJobs jobTexts jobFiles fileText companyNames
      if jds = [] then .error (400, "No valid job descriptions provided")
      else if decide (jds.length > 10) then
        .error (400, "Maximum 10 job descriptions allowed")
      else .ok jds

/-! ## Concrete fixtures used by witnesses and counterexamples -/

/-- Attempt oracle with an auth failure on the first key of the first
cycle and success on every other attempt. -/
def gAuthThenOk : ℕ → ℕ → CallOutcome := fun c k =>
  if c = 0 ∧ k = 0 then .exn "Error code: 401 - invalid api key" else .ok "hello"

/-- Model oracle that always raises a rate-limit error. -/
def fAllRaise : String → ModelOutcome := fun _ => .raises "rate limit"

/-- Email oracle that always succeeds. -/
def emailOk : ℕ → Bool → Except String String := fun _ acc =>
  .ok (if acc then "acceptance email" else "rejection email")

/-- The three-item ranking example of the specification. -/
def items3 : List ResumeItem :=
  [⟨"a.pdf", .analyzed ⟨90, ["k1"], "r"⟩⟩,
   ⟨"b.pdf", .analyzed ⟨90, [], "r"⟩⟩,
   ⟨"c.pdf", .analyzed ⟨70, [], "r"⟩⟩]

/-- Two items tying on both top score and missing-skill count. -/
def itemsTie : List ResumeItem :=
  [⟨"a.pdf", .analyzed ⟨90, ["p1"], "r"⟩⟩,
   ⟨"b.pdf", .analyzed ⟨90, ["p2"], "r"⟩⟩]

/-- A batch whose first item fails extraction and whose second item is
analyzed successfully. -/
def itemsMixed : List ResumeItem :=
  [⟨"a.pdf", .extractFail "boom"⟩,
   ⟨"b.pdf", .analyzed ⟨90, ["k8s"], "fine"⟩⟩]

/-- A batch in which every item fails. -/
def itemsAllFail : List ResumeItem :=
  [⟨"a.pdf", .extractFail "boom1"⟩, ⟨"b.pdf", .analyzeFail "boom2"⟩]

/-- A 60-character job text (long enough to be collected). -/
def longJobText : String := String.mk (List.replicate 60 'a')

/-- A 120-character resume text (long enough to pass validation). -/
def okResumeText : String := String.mk (List.replicate 120 'r')

/-- Eleven raw job texts of which only ten are valid. -/
def elevenJobTexts : List String := List.replicate 10 longJobText ++ ["short"]

/-! # Theorems -/

/-! ## C2: exhaustion of the completion gateway -/

/-- When every model of the list fails, the loop of `get_completion`
reaches the final raise, and the error data accumulates the last
exception seen. -/
theorem getCompletionLoop_all_fail (f : String → ModelOutcome) :
    ∀ (ms : List String) (last : Option String),
      (∀ m ∈ ms, ∀ t, f m ≠ .ok t) →
      getCompletionLoop f ms last =
        .error ⟨MODELS.length,
          ms.foldl (fun acc m => match f m with | .raises e => some e | _ => acc) last⟩
  | [], _, _ => rfl
  | m :: rest, last, h => by
    have hm := h m (List.mem_cons_self _ _)
    have hrest : ∀ m2 ∈ rest, ∀ t, f m2 ≠ .ok t :=
      fun m2 hm2 => h m2 (List.mem_cons_of_mem _ hm2)
    cases hfm : f m with
    | ok t => exact absurd hfm (hm t)
    | failNone =>
      simp only [getCompletionLoop, hfm, List.foldl_cons]
      exact getCompletionLoop_all_fail f rest last hrest
    | raises e =>
      simp only [getCompletionLoop, hfm, List.foldl_cons]
      exact getCompletionLoop_all_fail f rest (some e) hrest

/-- A text returned by the loop of `get_completion` is never empty:
the `if result:` truthiness check skips empty completions. -/
theorem getCompletionLoop_ok_ne_empty (f : String → ModelOutcome) :
    ∀ (ms : List String) (last : Option String) (t : String),
      getCompletionLoop f ms last = .ok t → t ≠ ""
  | [], _, t, h => by simp [getCompletionLoop] at h
  | m :: rest, last, t, h => by
    rw [getCompletionLoop] at h
    cases hfm : f m with
    | ok t0 =>
      simp only [hfm] at h
      split at h
      · rename_i ht0
        cases h
        exact ht0
      · exact getCompletionLoop_ok_ne_empty f rest last t h
    | failNone =>
      simp only [hfm] at h
      exact getCompletionLoop_ok_ne_empty f rest last t h
    | raises e =>
      simp only [hfm] at h
      exact getCompletionLoop_ok_ne_empty f rest (some e) t h

/-- Claim C2: when every (model, credential) attempt fails,
`get_completion` raises the exhaustion error rather than returning an
empty string or `None`, and the raised error carries the last
underlying exception for diagnostics; independently, `get_completion`
never returns an empty string. -/
theorem c2_get_completion_exhaustion (f : String → ModelOutcome) :
    ((∀ m ∈ MODELS, ∀ t, f m ≠ .ok t) →
      getCompletion f = .error ⟨5, lastRaised f MODELS⟩) ∧
    (∀ t, getCompletion f = .ok t → t ≠ "") := by
  constructor
  · intro h
    have he := getCompletionLoop_all_fail f MODELS none h
    rw [getCompletion, he]
    rfl
  · intro t h
    exact getCompletionLoop_ok_ne_empty f MODELS none t h

/-- Witness for C2 at a concrete oracle on which every attempt raises a
rate-limit error. -/
theorem c2_witness :
    getCompletion fAllRaise = .error ⟨5, some "rate limit"⟩ := by
  have h := (c2_get_completion_exhaustion fAllRaise).1
    (by intro m _ t hc; simp [fAllRaise] at hc)
  rw [h]
  rfl

/-! ## C3: pool state after a successful `_try_model_completion` -/

/-- If the inner key loop returns a text, some attempt of this cycle
succeeded, and the reported key index is the index of that credential. -/
theorem tryKeysLoop_retText (g : ℕ → ℕ → CallOutcome)
    (numKeys original cycle maxRetry : ℕ) :
    ∀ (n k rl : ℕ) (t : String) (ki : ℕ),
      n + k ≤ numKeys →
      tryKeysLoop g numKeys original cycle maxRetry n k rl = .retText t ki →
      ∃ k2, k ≤ k2 ∧ k2 < numKeys ∧ g cycle k2 = .ok t ∧
        ki = (original + k2) % numKeys
  | 0, k, rl, t, ki, _, h => by simp [tryKeysLoop] at h
  | n + 1, k, rl, t, ki, hb, h => by
    rw [tryKeysLoop] at h
    cases hg : g cycle k with
    | ok t0 =>
      simp only [hg] at h
      cases h
      exact ⟨k, le_refl k, by omega, hg, rfl⟩
    | timeout =>
      simp only [hg] at h
      obtain ⟨k2, hk2, hlt, hok, hki⟩ :=
        tryKeysLoop_retText g numKeys original cycle maxRetry n (k + 1) rl t ki
          (by omega) h
      exact ⟨k2, by omega, hlt, hok, hki⟩
    | exn e =>
      simp only [hg] at h
      cases hc : classifyError e with
      | rateLimit =>
        simp only [hc] at h
        by_cases hcond : rl + 1 ≥ numKeys ∧ cycle < maxRetry - 1
        · rw [if_pos hcond] at h
          cases h
        · rw [if_neg hcond] at h
          obtain ⟨k2, hk2, hlt, hok, hki⟩ :=
            tryKeysLoop_retText g numKeys original cycle maxRetry n (k + 1) (rl + 1) t ki
              (by omega) h
          exact ⟨k2, by omega, hlt, hok, hki⟩
      | keyError =>
        simp only [hc] at h
        obtain ⟨k2, hk2, hlt, hok, hki⟩ :=
          tryKeysLoop_retText g numKeys original cycle maxRetry n (k + 1) rl t ki
            (by omega) h
        exact ⟨k2, by omega, hlt, hok, hki⟩
      | modelError =>
        simp only [hc] at h
        cases h
      | otherError =>
        simp only [hc] at h
        obtain ⟨k2, hk2, hlt, hok, hki⟩ :=
          tryKeysLoop_retText g numKeys original cycle maxRetry n (k + 1) rl t ki
            (by omega) h
        exact ⟨k2, by omega, hlt, hok, hki⟩

/-- If the retry-cycle loop returns a text, some (cycle, key) attempt
produced it and the final index is the index of that credential. -/
theorem tryCyclesLoop_success (g : ℕ → ℕ → CallOutcome)
    (numKeys maxRetry original : ℕ) :
    ∀ (fuel cycle : ℕ) (t : String) (fi : ℕ),
      tryCyclesLoop g numKeys maxRetry original fuel cycle = (some t, fi) →
      ∃ c k, k < numKeys ∧ g c k = .ok t ∧ fi = (original + k) % numKeys
  | 0, _, t, fi, h => by simp [tryCyclesLoop] at h
  | fuel + 1, cycle, t, fi, h => by
    rw [tryCyclesLoop] at h
    cases hin : tryKeysLoop g numKeys original cycle maxRetry numKeys 0 0 with
    | retText t0 ki =>
      simp only [hin] at h
      cases h
      obtain ⟨k2, _, hlt, hok, hki⟩ :=
        tryKeysLoop_retText g numKeys original cycle maxRetry numKeys 0 0 t fi
          (by omega) hin
      exact ⟨cycle, k2, hlt, hok, hki⟩
    | modelAbort =>
      simp only [hin] at h
      exact absurd h (by simp)
    | done rl =>
      simp only [hin] at h
      by_cases hcond : rl ≥ numKeys ∧ cycle < maxRetry - 1
      · rw [if_pos hcond] at h
        exact tryCyclesLoop_success g numKeys maxRetry original fuel (cycle + 1) t fi h
      · rw [if_neg hcond] at h
        cases h

/-- Counterexample to claim C3 as stated: with two credentials, a
current index of `0`, an auth failure on key `0` and a success on key
`1`, `_try_model_completion` returns the text but leaves the current
key index at `1`, not at the original `0`. -/
theorem c3_counterexample :
    tryModelCompletion gAuthThenOk 2 2 0 = (some "hello", 1) ∧ (1 : ℕ) ≠ 0 :=
  ⟨rfl, by decide⟩

/-- Claim C3 amended: on success the text is returned immediately and
the pool's current key index afterwards is the index of the credential
that produced the successful completion (the pre-call index is restored
only on the model-unavailable and exhaustion paths). -/
theorem c3_success_leaves_winning_key (g : ℕ → ℕ → CallOutcome)
    (numKeys maxRetry original : ℕ) (t : String) (fi : ℕ)
    (h : tryModelCompletion g numKeys maxRetry original = (some t, fi)) :
    ∃ c k, k < numKeys ∧ g c k = .ok t ∧ fi = (original + k) % numKeys :=
  tryCyclesLoop_success g numKeys maxRetry original maxRetry 0 t fi h

/-- Witness for the amended C3 at the concrete two-key oracle. -/
theorem c3_witness :
    ∃ c k, k < 2 ∧ gAuthThenOk c k = .ok "hello" ∧ 1 = (0 + k) % 2 :=
  c3_success_leaves_winning_key gAuthThenOk 2 2 0 "hello" 1 rfl

/-! ## C7: credential reload -/

/-- Claim C7: a reload that reads a non-empty key set installs it and
brings the current index back into range; a reload that raises or reads
zero keys leaves the previous state untouched, and no exception reaches
the caller inside `get_completion`. -/
theorem c7_refresh_api_keys (ro : ReadOutcome) (s : PoolState) :
    (∀ envFile sysEnv, ro = .ok envFile sysEnv → keysRead envFile sysEnv ≠ [] →
      refreshFromGetCompletion ro s =
        { apiKeys := keysRead envFile sysEnv,
          currentKeyIndex :=
            if s.currentKeyIndex ≥ (keysRead envFile sysEnv).length then 0
            else s.currentKeyIndex } ∧
      (refreshFromGetCompletion ro s).currentKeyIndex <
        (refreshFromGetCompletion ro s).apiKeys.length) ∧
    (∀ e, ro = .raises e → refreshFromGetCompletion ro s = s) ∧
    (∀ envFile sysEnv, ro = .ok envFile sysEnv → keysRead envFile sysEnv = [] →
      refreshFromGetCompletion ro s = s) := by
  refine ⟨?_, ?_, ?_⟩
  · rintro envFile sysEnv rfl hne
    have heq : refreshFromGetCompletion (.ok envFile sysEnv) s =
        { apiKeys := keysRead envFile sysEnv,
          currentKeyIndex :=
            if s.currentKeyIndex ≥ (keysRead envFile sysEnv).length then 0
            else s.currentKeyIndex } := by
      simp [refreshFromGetCompletion, refreshApiKeys, hne]
    refine ⟨heq, ?_⟩
    rw [heq]
    by_cases hge : s.currentKeyIndex ≥ (keysRead envFile sysEnv).length
    · simpa [hge] using List.length_pos.mpr hne
    · simpa [hge] using by omega
  · rintro e rfl
    rfl
  · rintro envFile sysEnv rfl hz
    simp [refreshFromGetCompletion, refreshApiKeys, hz]

/-- Witness for C7: a successful reload of two keys clamps the index,
and a raising reload leaves the state unchanged. -/
theorem c7_witness :
    refreshFromGetCompletion (.ok (some [some "k1", some "k2"]) []) ⟨["old"], 5⟩ =
      { apiKeys := ["k1", "k2"], currentKeyIndex := 0 } ∧
    refreshFromGetCompletion (.raises "io error") ⟨["old"], 5⟩ = ⟨["old"], 5⟩ := by
  constructor
  · have h := ((c7_refresh_api_keys (.ok (some [some "k1", some "k2"]) [])
      ⟨["old"], 5⟩).1 (some [some "k1", some "k2"]) [] rfl (by decide)).1
    rw [h]
    rfl
  · exact (c7_refresh_api_keys (.raises "io error") ⟨["old"], 5⟩).2.1 "io error" rfl

/-! ## C10: batch size limits of the endpoints -/

/-- Counterexample to claim C10 as stated: a request to
`analyze_jobs_stream` carrying eleven job-description items, one of
which is shorter than 50 characters, is accepted and processes the ten
valid ones, because the limit is checked on the collected valid list. -/
theorem c10_counterexample :
    elevenJobTexts.length = 11 ∧
    (analyzeJobsStreamValidate (.ok okResumeText) (some elevenJobTexts) none
        (fun _ => .error "unused") none).map List.length = .ok 10 :=
  ⟨rfl, rfl⟩

/-- Claim C10 amended: the resume endpoints reject any request with
more than 10 resume files with HTTP 400 before analysis; the job
endpoint rejects when the collected valid job descriptions exceed 10;
and any batch passed on to processing has at most 10 items. -/
theorem c10_batch_limits :
    (∀ jd resumes, 10 < resumes.length →
      ∃ msg, analyzeResumesStreamValidate jd resumes = .error (400, msg)) ∧
    (∀ jd resumes, 10 < resumes.length →
      ∃ msg, analyzeResumesValidate jd resumes = .error (400, msg)) ∧
    (∀ rt jt jf ft cn, 10 < (collectedJobs jt jf ft cn).length →
      ∃ msg, analyzeJobsStreamValidate rt jt jf ft cn = .error (400, msg)) ∧
    (∀ jd resumes l, analyzeResumesStreamValidate jd resumes = .ok l →
      l.length ≤ 10) ∧
    (∀ jd resumes l, analyzeResumesValidate jd resumes = .ok l → l.length ≤ 10) ∧
    (∀ rt jt jf ft cn l, analyzeJobsStreamValidate rt jt jf ft cn = .ok l →
      l.length ≤ 10) := by
  refine ⟨?_, ?_, ?_, ?_, ?_, ?_⟩
  · intro jd resumes hlen
    unfold analyzeResumesStreamValidate
    split
    · exact ⟨_, rfl⟩
    · split
      · exact ⟨_, rfl⟩
      · split
        · exact ⟨_, rfl⟩
        · rename_i h3
          exact absurd hlen (by simpa using h3)
  · intro jd resumes hlen
    unfold analyzeResumesValidate
    split
    · exact ⟨_, rfl⟩
    · split
      · exact ⟨_, rfl⟩
      · split
        · exact ⟨_, rfl⟩
        · rename_i h3
          exact absurd hlen (by simpa using h3)
  · intro rt jt jf ft cn hlen
    cases rt with
    | error e => exact ⟨_, rfl⟩
    | ok t =>
      simp only [analyzeJobsStreamValidate]
      split
      · exact ⟨_, rfl⟩
      · split
        · exact ⟨_, rfl⟩
        · split
          · exact ⟨_, rfl⟩
          · rename_i h3
            exact absurd hlen (by simpa using h3)
  · intro jd resumes l h
    unfold analyzeResumesStreamValidate at h
    split at h
    · cases h
    · split at h
      · cases h
      · split at h
        · cases h
        · rename_i h3
          cases h
          simpa using h3
  · intro jd resumes l h
    unfold analyzeResumesValidate at h
    split at h
    · cases h
    · split at h
      · cases h
      · split at h
        · cases h
        · rename_i h3
          split at h
          · cases h
          · split at h
            · cases h
            · cases h
              simpa using h3
  · intro rt jt jf ft cn l h
    cases rt with
    | error e => simp [analyzeJobsStreamValidate] at h
    | ok t =>
      simp only [analyzeJobsStreamValidate] at h
      split at h
      · cases h
      · split at h
        · cases h
        · split at h
          · cases h
          · rename_i h3
            cases h
            simpa using h3

/-- Witness for the amended C10 at eleven concrete resume files. -/
theorem c10_witness :
    ∃ msg, analyzeResumesStreamValidate ""
      (List.replicate 11 ⟨"a.pdf", 0⟩) = .error (400, msg) :=
  c10_batch_limits.1 "" (List.replicate 11 ⟨"a.pdf", 0⟩) (by decide)

/-! ## Dictionary lemmas shared by the parser claims -/

/-- Looking up the key just assigned yields the assigned value. -/
theorem pyDictGet_insert_self :
    ∀ (d : List (String × PValue)) (k : String) (v : PValue),
      pyDictGet (pyDictInsert d k v) k = some v
  | [], k, v => by simp [pyDictInsert, pyDictGet]
  | p :: rest, k, v => by
    by_cases hp : p.1 = k
    · simp [pyDictInsert, pyDictGet, hp]
    · simp [pyDictInsert, pyDictGet, hp, pyDictGet_insert_self rest k v]

/-- Assigning one key leaves the lookup of another unchanged. -/
theorem pyDictGet_insert_ne :
    ∀ (d : List (String × PValue)) (k2 k : String) (v : PValue), k2 ≠ k →
      pyDictGet (pyDictInsert d k2 v) k = pyDictGet d k
  | [], k2, k, v, h => by simp [pyDictInsert, pyDictGet, h]
  | p :: rest, k2, k, v, h => by
    by_cases hp : p.1 = k2
    · have hpk : ¬ p.1 = k := by rw [hp]; exact h
      simp [pyDictInsert, pyDictGet, hp, h, hpk]
    · by_cases hpk : p.1 = k
      · have hkk2 : ¬ k = k2 := fun hc => h hc.symm
        simp [pyDictInsert, pyDictGet, hp, hpk, hkk2]
      · simp [pyDictInsert, pyDictGet, hp, hpk, pyDictGet_insert_ne rest k2 k v h]

/-- A defaulting step for one key does not change another key. -/
theorem pyDictGet_defaultStep_ne (d : List (String × PValue)) (k K : String)
    (v : PValue) (h : k ≠ K) :
    pyDictGet (if pyDictHas d k then d else pyDictInsert d k v) K = pyDictGet d K := by
  by_cases hh : pyDictHas d k
  · rw [if_pos hh]
  · rw [if_neg hh]
    exact pyDictGet_insert_ne d k K v h

/-- A defaulting step installs the default exactly when the key was
absent. -/
theorem pyDictGet_defaultStep_self (d : List (String × PValue)) (k : String)
    (v : PValue) :
    pyDictGet (if pyDictHas d k then d else pyDictInsert d k v) k =
      match pyDictGet d k with
      | some w => some w
      | none => some v := by
  by_cases hh : pyDictHas d k
  · rw [if_pos hh]
    unfold pyDictHas at hh
    cases hget : pyDictGet d k with
    | none => rw [hget] at hh; simp at hh
    | some w => rfl
  · rw [if_neg hh]
    rw [pyDictGet_insert_self]
    unfold pyDictHas at hh
    cases hget : pyDictGet d k with
    | none => rfl
    | some w => rw [hget] at hh; simp at hh

/-- The defaulting pipeline seen at key `score`. -/
theorem applyDefaults_score (d : List (String × PValue)) :
    pyDictGet (applyDefaults d) "score" =
      match pyDictGet d "score" with
      | some w => some w
      | none => some (.num 0) := by
  unfold applyDefaults
  rw [pyDictGet_defaultStep_ne _ "remarks" "score" _ (by decide)]
  rw [pyDictGet_defaultStep_ne _ "missing_skills" "score" _ (by decide)]
  rw [pyDictGet_defaultStep_self]

/-- The defaulting pipeline seen at key `missing_skills`. -/
theorem applyDefaults_missing (d : List (String × PValue)) :
    pyDictGet (applyDefaults d) "missing_skills" =
      match pyDictGet d "missing_skills" with
      | some w => some w
      | none => some (.list []) := by
  unfold applyDefaults
  rw [pyDictGet_defaultStep_ne _ "remarks" "missing_skills" _ (by decide)]
  rw [pyDictGet_defaultStep_self]
  rw [pyDictGet_defaultStep_ne _ "score" "missing_skills" _ (by decide)]

/-! ## C4: the Score field -/

/-- The key loop seen at key `score`: when `Score` is requested and a
`Score` line exists, the slot holds the parsed score; otherwise the
initial dictionary shows through.  The side condition rules out other
requested keys whose lower-case form collides with `score`. -/
theorem score_fold (result : String) :
    ∀ (ks : List String) (d : List (String × PValue)),
      (∀ k ∈ ks, pyLower k = "score" → k = "Score") →
      pyDictGet (ks.foldl (parseStep result) d) "score" =
        if "Score" ∈ ks ∧ (extractValue result "Score").isSome
        then some (.num (scoreValueOf result))
        else pyDictGet d "score"
  | [], d, _ => by simp
  | key :: rest, d, hnc => by
    have hrest : ∀ k ∈ rest, pyLower k = "score" → k = "Score" :=
      fun k hk => hnc k (List.mem_cons_of_mem _ hk)
    rw [List.foldl_cons, score_fold result rest (parseStep result d key) hrest]
    by_cases hkey : key = "Score"
    · subst hkey
      cases hx : extractValue result "Score" with
      | none =>
        have hstep : parseStep result d "Score" = d := by
          simp [parseStep, hx]
        simp [hstep, hx]
      | some v =>
        have hstep : parseStep result d "Score" =
            pyDictInsert d "score" (.num (scoreOfValue v)) := by
          simp [parseStep, hx]
        have hval : scoreValueOf result = scoreOfValue v := by
          simp [scoreValueOf, hx]
        simp [hstep, hx, hval, pyDictGet_insert_self]
    · have hkey2 : ¬ "Score" = key := fun hc => hkey hc.symm
      have hpres : pyDictGet (parseStep result d key) "score" = pyDictGet d "score" := by
        cases hx : extractValue result key with
        | none => simp [parseStep, hx]
        | some v =>
          simp only [parseStep, hx]
          rw [if_neg hkey]
          by_cases hms : key = "Missing Skills"
          · rw [if_pos hms]
            exact pyDictGet_insert_ne d "missing_skills" "score" _ (by decide)
          · rw [if_neg hms]
            refine pyDictGet_insert_ne d (pyLower key) "score" _ ?_
            intro hlk
            exact hkey (hnc key (List.mem_cons_self _ _) hlk)
      simp [hpres, List.mem_cons, hkey2]

/-- Counterexample to claim C4 as stated: the code removes every `%`
character before parsing, not only a trailing one, so `Score: 13%7`
parses to `137` and clamps to `100`, while the claimed
trailing-`%`-stripping semantics would fail the parse and default to
`0`. -/
theorem c4_counterexample :
    extractValue "Score: 13%7" "Score" = some "13%7" ∧
    pyDictGet (parseStructuredResponse "Score: 13%7" ["Score"]) "score" =
      some (.num 100) ∧
    scoreSpecTrailingPercent "13%7" = 0 ∧ (100 : ℚ) ≠ 0 :=
  ⟨rfl, rfl, rfl, by decide⟩

/-- Claim C4 amended: the `Score` value is taken from the first line
whose trimmed content starts with `Score:`, every `%` character is
removed, the rest is parsed as a float and clamped into `[0, 100]`,
with `0` on parse failure and no exception; `Score: 137%` yields `100`
and `Score: -5` yields `0`. -/
theorem c4_score_parsing (result : String) (keys : List String)
    (hmem : "Score" ∈ keys)
    (hnc : ∀ k ∈ keys, pyLower k = "score" → k = "Score") :
    pyDictGet (parseStructuredResponse result keys) "score" =
      some (.num (scoreValueOf result)) ∧
    (∀ v x, pyFloat (pyStrip (pyReplace v "%" "")) = some x →
      scoreOfValue v = pyMin 100 (pyMax 0 x)) ∧
    (∀ v, pyFloat (pyStrip (pyReplace v "%" "")) = none → scoreOfValue v = 0) ∧
    (∀ x : ℚ, 0 ≤ pyMin 100 (pyMax 0 x) ∧ pyMin 100 (pyMax 0 x) ≤ 100) ∧
    pyDictGet (parseStructuredResponse "Score: 137%" ["Score"]) "score" =
      some (.num 100) ∧
    pyDictGet (parseStructuredResponse "Score: -5" ["Score"]) "score" =
      some (.num 0) := by
  refine ⟨?_, ?_, ?_, ?_, rfl, rfl⟩
  · unfold parseStructuredResponse
    rw [applyDefaults_score, score_fold result keys [] hnc]
    cases hx : extractValue result "Score" with
    | none =>
      have : scoreValueOf result = 0 := by simp [scoreValueOf, hx]
      simp [hx, this, pyDictGet]
    | some v => simp [hx, hmem]
  · intro v x h
    unfold scoreOfValue
    rw [h]
  · intro v h
    unfold scoreOfValue
    rw [h]
  · intro x
    unfold pyMin pyMax
    split_ifs <;> constructor <;> linarith

/-- Witness for the amended C4 at a concrete response. -/
theorem c4_witness :
    pyDictGet (parseStructuredResponse "Score: 137%" ["Score"]) "score" =
      some (.num (scoreValueOf "Score: 137%")) :=
  (c4_score_parsing "Score: 137%" ["Score"] (by decide) (by decide)).1

/-! ## C5 and C6: the Missing Skills field -/

/-- The key loop seen at key `missing_skills`, under the side condition
that no requested key lower-cases to the literal slot name (the key
`Missing Skills` itself lower-cases to `missing skills`). -/
theorem missing_fold (result : String) :
    ∀ (ks : List String) (d : List (String × PValue)),
      (∀ k ∈ ks, pyLower k ≠ "missing_skills") →
      pyDictGet (ks.foldl (parseStep result) d) "missing_skills" =
        if "Missing Skills" ∈ ks ∧ (extractValue result "Missing Skills").isSome
        then some (.list (missingValueOf result))
        else pyDictGet d "missing_skills"
  | [], d, _ => by simp
  | key :: rest, d, hnc => by
    have hrest : ∀ k ∈ rest, pyLower k ≠ "missing_skills" :=
      fun k hk => hnc k (List.mem_cons_of_mem _ hk)
    rw [List.foldl_cons, missing_fold result rest (parseStep result d key) hrest]
    by_cases hkey : key = "Missing Skills"
    · subst hkey
      cases hx : extractValue result "Missing Skills" with
      | none =>
        have hstep : parseStep result d "Missing Skills" = d := by
          simp [parseStep, hx]
        simp [hstep, hx]
      | some v =>
        have hstep : parseStep result d "Missing Skills" =
            pyDictInsert d "missing_skills" (.list (missingSkillsOf v)) := by
          simp [parseStep, hx]
        have hval : missingValueOf result = missingSkillsOf v := by
          simp [missingValueOf, hx]
        simp [hstep, hx, hval, pyDictGet_insert_self]
    · have hkey2 : ¬ "Missing Skills" = key := fun hc => hkey hc.symm
      have hpres : pyDictGet (parseStep result d key) "missing_skills" =
          pyDictGet d "missing_skills" := by
        cases hx : extractValue result key with
        | none => simp [parseStep, hx]
        | some v =>
          simp only [parseStep, hx]
          by_cases hsc : key = "Score"
          · rw [if_pos hsc]
            exact pyDictGet_insert_ne d "score" "missing_skills" _ (by decide)
          · rw [if_neg hsc, if_neg hkey]
            exact pyDictGet_insert_ne d (pyLower key) "missing_skills" _
              (hnc key (List.mem_cons_self _ _))
      simp [hpres, List.mem_cons, hkey2]

/-- The three shapes the `Missing Skills` branch can produce: empty
(sentinel value or empty no-separator value), a cleaned split, or the
whole trimmed value as a single entry. -/
theorem missingSkillsOf_cases (v : String) :
    missingSkillsOf v = [] ∨
    (∃ sep, missingSkillsOf v = splitClean v sep) ∨
    (missingSkillsOf v = [pyStrip v] ∧ pyStrip v ≠ "") := by
  by_cases hsent : pyLower (pyStrip v) ∈ sentinelValues
  · exact Or.inl (by simp [missingSkillsOf, hsent])
  · cases hfs : firstSeparator v with
    | some sep =>
      exact Or.inr (Or.inl ⟨sep, by simp [missingSkillsOf, hsent, hfs]⟩)
    | none =>
      by_cases hne : pyStrip v ≠ ""
      · exact Or.inr (Or.inr ⟨by simp [missingSkillsOf, hsent, hfs, hne], hne⟩)
      · exact Or.inl (by simp [missingSkillsOf, hsent, hfs, hne])

/-- Every token kept by the split-and-clean step is non-empty, not a
token sentinel, and longer than one character. -/
theorem splitClean_entries (v sep : String) :
    ∀ s ∈ splitClean v sep,
      s ≠ "" ∧ pyLower s ∉ tokenSentinels ∧ 1 < pyLen s := by
  intro s hs
  unfold splitClean at hs
  rw [List.mem_filterMap] at hs
  obtain ⟨tok, _, htok⟩ := hs
  dsimp only at htok
  split at htok
  · rename_i hcond
    cases htok
    exact hcond
  · cases htok

/-- Membership in the split-and-clean result, characterised as the
claim words it: a trimmed token of the split that survives the three
filters. -/
theorem splitClean_mem_iff (v sep s : String) :
    s ∈ splitClean v sep ↔
      ∃ tok ∈ pySplitOn v sep, pyStrip tok = s ∧ s ≠ "" ∧
        pyLower s ∉ tokenSentinels ∧ 1 < pyLen s := by
  unfold splitClean
  rw [List.mem_filterMap]
  constructor
  · rintro ⟨tok, htok, hf⟩
    dsimp only at hf
    split at hf
    · rename_i hcond
      cases hf
      exact ⟨tok, htok, rfl, hcond⟩
    · cases hf
  · rintro ⟨tok, htok, hstrip, hne, hsent, hlen⟩
    refine ⟨tok, htok, ?_⟩
    dsimp only
    rw [hstrip, if_pos ⟨hne, hsent, hlen⟩]

/-- Every entry produced by the `Missing Skills` branch is non-empty. -/
theorem missingSkillsOf_ne_empty (v : String) :
    ∀ s ∈ missingSkillsOf v, s ≠ "" := by
  rcases missingSkillsOf_cases v with h | ⟨sep, h⟩ | ⟨h, hne⟩ <;> rw [h]
  · simp
  · intro s hs
    exact (splitClean_entries v sep s hs).1
  · intro s hs
    simp at hs
    subst hs
    exact hne

/-- When the branch produces at least two entries, the value was split
on a separator, so every entry is longer than one character. -/
theorem missingSkillsOf_long_entries (v : String)
    (hlen : 2 ≤ (missingSkillsOf v).length) :
    ∀ s ∈ missingSkillsOf v, 1 < pyLen s := by
  rcases missingSkillsOf_cases v with h | ⟨sep, h⟩ | ⟨h, _⟩
  · rw [h] at hlen
    simp at hlen
  · rw [h]
    intro s hs
    exact (splitClean_entries v sep s hs).2.2
  · rw [h] at hlen
    simp at hlen

/-- Any list stored under `missing_skills` by the parser is either the
empty default or the product of the `Missing Skills` branch on some
value. -/
theorem parsed_missing_cases (result : String) (keys : List String) :
    ∀ ms, pyDictGet (parseStructuredResponse result keys) "missing_skills" =
      some (.list ms) → ms = [] ∨ ∃ v, ms = missingSkillsOf v := by
  have hfold : ∀ (ks : List String) (d : List (String × PValue)),
      (∀ ms, pyDictGet d "missing_skills" = some (.list ms) →
        ms = [] ∨ ∃ v, ms = missingSkillsOf v) →
      ∀ ms, pyDictGet (ks.foldl (parseStep result) d) "missing_skills" =
        some (.list ms) → ms = [] ∨ ∃ v, ms = missingSkillsOf v := by
    intro ks
    induction ks with
    | nil => exact fun d hd => hd
    | cons key rest ih =>
      intro d hd
      rw [List.foldl_cons]
      refine ih (parseStep result d key) ?_
      intro ms hms
      cases hx : extractValue result key with
      | none =>
        simp only [parseStep, hx] at hms
        exact hd ms hms
      | some v =>
        simp only [parseStep, hx] at hms
        by_cases hsc : key = "Score"
        · rw [if_pos hsc,
            pyDictGet_insert_ne d "score" "missing_skills" _ (by decide)] at hms
          exact hd ms hms
        · rw [if_neg hsc] at hms
          by_cases hmk : key = "Missing Skills"
          · rw [if_pos hmk, pyDictGet_insert_self] at hms
            cases hms
            exact Or.inr ⟨v, rfl⟩
          · rw [if_neg hmk] at hms
            by_cases hlk : pyLower key = "missing_skills"
            · rw [hlk, pyDictGet_insert_self] at hms
              cases hms
            · rw [pyDictGet_insert_ne d (pyLower key) "missing_skills" _ hlk] at hms
              exact hd ms hms
  intro ms hms
  unfold parseStructuredResponse at hms
  rw [applyDefaults_missing] at hms
  cases hget : pyDictGet (keys.foldl (parseStep result) []) "missing_skills" with
  | none =>
    rw [hget] at hms
    cases hms
    exact Or.inl rfl
  | some w =>
    rw [hget] at hms
    cases hms
    refine hfold keys [] ?_ ms hget
    intro ms2 h2
    simp [pyDictGet] at h2

/-- Claim C5: the `Missing Skills` value parses to the empty list on a
sentinel, otherwise it is split on the first separator found, trying
comma, semicolon, newline, bullet, hyphen in that order, with trimmed
tokens kept when non-empty, not a sentinel word, and longer than one
character; without any separator the whole trimmed value is a single
entry.  `Go, Rust, C++` parses to `["Go", "Rust", "C++"]`. -/
theorem c5_missing_skills_split (result : String) (keys : List String)
    (hmem : "Missing Skills" ∈ keys)
    (hnc : ∀ k ∈ keys, pyLower k ≠ "missing_skills") :
    pyDictGet (parseStructuredResponse result keys) "missing_skills" =
      some (.list (missingValueOf result)) ∧
    (∀ v, pyLower (pyStrip v) ∈ sentinelValues → missingSkillsOf v = []) ∧
    (∀ v, pyLower (pyStrip v) ∉ sentinelValues →
      (pyContains v "," = true → missingSkillsOf v = splitClean v ",") ∧
      (pyContains v "," = false → pyContains v ";" = true →
        missingSkillsOf v = splitClean v ";") ∧
      (pyContains v "," = false → pyContains v ";" = false →
        pyContains v "\n" = true → missingSkillsOf v = splitClean v "\n") ∧
      (pyContains v "," = false → pyContains v ";" = false →
        pyContains v "\n" = false → pyContains v "•" = true →
        missingSkillsOf v = splitClean v "•") ∧
      (pyContains v "," = false → pyContains v ";" = false →
        pyContains v "\n" = false → pyContains v "•" = false →
        pyContains v "-" = true → missingSkillsOf v = splitClean v "-") ∧
      (pyContains v "," = false → pyContains v ";" = false →
        pyContains v "\n" = false → pyContains v "•" = false →
        pyContains v "-" = false →
        missingSkillsOf v = if pyStrip v ≠ "" then [pyStrip v] else [])) ∧
    (∀ v sep s, s ∈ splitClean v sep ↔
      ∃ tok ∈ pySplitOn v sep, pyStrip tok = s ∧ s ≠ "" ∧
        pyLower s ∉ tokenSentinels ∧ 1 < pyLen s) ∧
    pyDictGet (parseStructuredResponse "Missing Skills: Go, Rust, C++"
      ["Missing Skills"]) "missing_skills" =
      some (.list ["Go", "Rust", "C++"]) ∧
    pyDictGet (parseStructuredResponse "Missing Skills: none"
      ["Missing Skills"]) "missing_skills" = some (.list []) := by
  refine ⟨?_, ?_, ?_, splitClean_mem_iff, rfl, rfl⟩
  · unfold parseStructuredResponse
    rw [applyDefaults_missing, missing_fold result keys [] hnc]
    cases hx : extractValue result "Missing Skills" with
    | none =>
      have : missingValueOf result = [] := by simp [missingValueOf, hx]
      simp [hx, this, pyDictGet]
    | some v => simp [hx, hmem]
  · intro v hsent
    simp [missingSkillsOf, hsent]
  · intro v hsent
    refine ⟨?_, ?_, ?_, ?_, ?_, ?_⟩
    · intro h1
      simp [missingSkillsOf, hsent, firstSeparator, separators, List.find?, h1]
    · intro h1 h2
      simp [missingSkillsOf, hsent, firstSeparator, separators, List.find?, h1, h2]
    · intro h1 h2 h3
      simp [missingSkillsOf, hsent, firstSeparator, separators, List.find?, h1, h2, h3]
    · intro h1 h2 h3 h4
      simp [missingSkillsOf, hsent, firstSeparator, separators, List.find?,
        h1, h2, h3, h4]
    · intro h1 h2 h3 h4 h5
      simp [missingSkillsOf, hsent, firstSeparator, separators, List.find?,
        h1, h2, h3, h4, h5]
    · intro h1 h2 h3 h4 h5
      simp [missingSkillsOf, hsent, firstSeparator, separators, List.find?,
        h1, h2, h3, h4, h5]

/-- Witness for C5 at a concrete response. -/
theorem c5_witness :
    pyDictGet (parseStructuredResponse "Missing Skills: Go, Rust, C++"
      ["Missing Skills"]) "missing_skills" =
      some (.list (missingValueOf "Missing Skills: Go, Rust, C++")) :=
  (c5_missing_skills_split "Missing Skills: Go, Rust, C++" ["Missing Skills"]
    (by decide) (by decide)).1

/-- Counterexample to claim C6 as stated: a separator-free value
becomes a single entry verbatim, so `Missing Skills: x` produces the
entry `x` of length 1, not greater than 1. -/
theorem c6_counterexample :
    pyDictGet (parseStructuredResponse "Missing Skills: x" ["Missing Skills"])
      "missing_skills" = some (.list ["x"]) ∧
    "x" ∈ (["x"] : List String) ∧ pyLen "x" = 1 :=
  ⟨rfl, by decide, rfl⟩

/-- Claim C6 amended: every entry of the `missing_skills` list is a
non-empty string, and whenever the list has at least two entries (so
the value was split on a separator) every entry is moreover longer
than one character; a separator-free value may contribute a single
entry of length 1. -/
theorem c6_missing_skills_entries (result : String) (keys : List String)
    (ms : List String)
    (h : pyDictGet (parseStructuredResponse result keys) "missing_skills" =
      some (.list ms)) :
    (∀ s ∈ ms, s ≠ "") ∧ (2 ≤ ms.length → ∀ s ∈ ms, 1 < pyLen s) := by
  rcases parsed_missing_cases result keys ms h with rfl | ⟨v, rfl⟩
  · refine ⟨by simp, ?_⟩
    intro h2
    simp at h2
  · exact ⟨missingSkillsOf_ne_empty v, fun h2 => missingSkillsOf_long_entries v h2⟩

/-- Witness for the amended C6 at a concrete response. -/
theorem c6_witness :
    (∀ s ∈ (["Go", "Rust"] : List String), s ≠ "") ∧
    (2 ≤ (["Go", "Rust"] : List String).length →
      ∀ s ∈ (["Go", "Rust"] : List String), 1 < pyLen s) :=
  c6_missing_skills_entries "Missing Skills: Go, Rust" ["Missing Skills"]
    ["Go", "Rust"] rfl

/-! ## C1: the best-match rule -/

theorem pyMax_left (a b : ℚ) : a ≤ pyMax a b := by
  unfold pyMax
  split
  · assumption
  · exact le_refl a

theorem pyMax_right (a b : ℚ) : b ≤ pyMax a b := by
  unfold pyMax
  split
  · exact le_refl b
  · linarith [le_of_not_le (by assumption : ¬ a ≤ b)]

theorem pyMax_eq_or (a b : ℚ) : pyMax a b = a ∨ pyMax a b = b := by
  unfold pyMax
  split
  · exact Or.inr rfl
  · exact Or.inl rfl

/-- The running Python `max` bounds the seed and every element. -/
theorem foldl_pyMax_spec : ∀ (l : List ℚ) (a : ℚ),
    a ≤ l.foldl pyMax a ∧ ∀ x ∈ l, x ≤ l.foldl pyMax a
  | [], a => ⟨le_refl a, by simp⟩
  | x :: xs, a => by
    obtain ⟨h1, h2⟩ := foldl_pyMax_spec xs (pyMax a x)
    rw [List.foldl_cons]
    refine ⟨le_trans (pyMax_left a x) h1, ?_⟩
    intro y hy
    rcases List.mem_cons.mp hy with rfl | hy2
    · exact le_trans (pyMax_right a y) h1
    · exact h2 y hy2

/-- The running Python `max` is the seed or one of the elements. -/
theorem foldl_pyMax_mem : ∀ (l : List ℚ) (a : ℚ),
    l.foldl pyMax a = a ∨ l.foldl pyMax a ∈ l
  | [], _ => Or.inl rfl
  | x :: xs, a => by
    rw [List.foldl_cons]
    rcases foldl_pyMax_mem xs (pyMax a x) with h | h
    · rw [h]
      rcases pyMax_eq_or a x with h2 | h2
      · exact Or.inl h2
      · rw [h2]
        exact Or.inr (List.mem_cons_self x xs)
    · exact Or.inr (List.mem_cons_of_mem x h)

/-- Python `max` over a non-empty list: a member bounding the list. -/
theorem pyMaxList_spec (l : List ℚ) (m : ℚ) (h : pyMaxList l = some m) :
    m ∈ l ∧ ∀ x ∈ l, x ≤ m := by
  cases l with
  | nil => simp [pyMaxList] at h
  | cons x xs =>
    simp only [pyMaxList] at h
    cases h
    constructor
    · rcases foldl_pyMax_mem xs x with h2 | h2
      · rw [h2]
        exact List.mem_cons_self x xs
      · exact List.mem_cons_of_mem x h2
    · intro y hy
      obtain ⟨h1, h2⟩ := foldl_pyMax_spec xs x
      rcases List.mem_cons.mp hy with rfl | hy2
      · exact h1
      · exact h2 y hy2

theorem pyMaxList_nonempty (l : List ℚ) (h : l ≠ []) :
    ∃ m, pyMaxList l = some m := by
  cases l with
  | nil => exact absurd rfl h
  | cons x xs => exact ⟨_, rfl⟩

theorem natMin_eq_or (a b : ℕ) : Nat.min a b = a ∨ Nat.min a b = b := by
  rcases Nat.le_total a b with h | h
  · exact Or.inl (Nat.min_eq_left h)
  · exact Or.inr (Nat.min_eq_right h)

/-- The running Python `min` is below the seed and every element. -/
theorem foldl_natMin_spec : ∀ (l : List ℕ) (a : ℕ),
    l.foldl Nat.min a ≤ a ∧ ∀ x ∈ l, l.foldl Nat.min a ≤ x
  | [], a => ⟨le_refl a, by simp⟩
  | x :: xs, a => by
    obtain ⟨h1, h2⟩ := foldl_natMin_spec xs (Nat.min a x)
    rw [List.foldl_cons]
    refine ⟨le_trans h1 (Nat.min_le_left a x), ?_⟩
    intro y hy
    rcases List.mem_cons.mp hy with rfl | hy2
    · exact le_trans h1 (Nat.min_le_right a y)
    · exact h2 y hy2

/-- The running Python `min` is the seed or one of the elements. -/
theorem foldl_natMin_mem : ∀ (l : List ℕ) (a : ℕ),
    l.foldl Nat.min a = a ∨ l.foldl Nat.min a ∈ l
  | [], _ => Or.inl rfl
  | x :: xs, a => by
    rw [List.foldl_cons]
    rcases foldl_natMin_mem xs (Nat.min a x) with h | h
    · rw [h]
      rcases natMin_eq_or a x with h2 | h2
      · exact Or.inl h2
      · rw [h2]
        exact Or.inr (List.mem_cons_self x xs)
    · exact Or.inr (List.mem_cons_of_mem x h)

/-- Python `min` over a non-empty list: a member below the list. -/
theorem pyMinList_spec (l : List ℕ) (m : ℕ) (h : pyMinList l = some m) :
    m ∈ l ∧ ∀ x ∈ l, m ≤ x := by
  cases l with
  | nil => simp [pyMinList] at h
  | cons x xs =>
    simp only [pyMinList] at h
    cases h
    constructor
    · rcases foldl_natMin_mem xs x with h2 | h2
      · rw [h2]
        exact List.mem_cons_self x xs
      · exact List.mem_cons_of_mem x h2
    · intro y hy
      obtain ⟨h1, h2⟩ := foldl_natMin_spec xs x
      rcases List.mem_cons.mp hy with rfl | hy2
      · exact h1
      · exact h2 y hy2

theorem pyMinList_nonempty (l : List ℕ) (h : l ≠ []) :
    ∃ m, pyMinList l = some m := by
  cases l with
  | nil => exact absurd rfl h
  | cons x xs => exact ⟨_, rfl⟩

/-- One insertion step permutes to a cons. -/
theorem insertByScore_perm (r : ResultRecord) :
    ∀ l : List ResultRecord, List.Perm (insertByScore r l) (r :: l)
  | [] => List.Perm.refl _
  | x :: xs => by
    unfold insertByScore
    split
    · exact List.Perm.refl _
    · exact ((insertByScore_perm r xs).cons x).trans (List.Perm.swap r x xs)

/-- The descending sort is a permutation of its input. -/
theorem sortByScoreDesc_perm :
    ∀ l : List ResultRecord, List.Perm (sortByScoreDesc l) l
  | [] => List.Perm.refl _
  | x :: xs =>
    (insertByScore_perm x (sortByScoreDesc xs)).trans
      ((sortByScoreDesc_perm xs).cons x)

/-- Equal lists have equal entries at any in-range position. -/
theorem list_get_congr {α : Type} (l l2 : List α) (i : ℕ) (h : i < l.length)
    (h2 : i < l2.length) (heq : l = l2) : l.get ⟨i, h⟩ = l2.get ⟨i, h2⟩ := by
  subst heq
  rfl

/-- The email loop keeps the record count. -/
theorem annotateAll_length (succ : List ResultRecord) (minS : ℚ) (maxM : ℕ)
    (emailG : ℕ → Bool → Except String String) :
    ∀ (l : List ResultRecord) (j : ℕ),
      (annotateAll succ minS maxM emailG j l).length = l.length
  | [], _ => rfl
  | r :: rest, j => by
    simp [annotateAll, annotateAll_length succ minS maxM emailG rest (j + 1)]

/-- The record at position `i` of the email loop output is the
annotation of the input record at `i` with the running index. -/
theorem annotateAll_get (succ : List ResultRecord) (minS : ℚ) (maxM : ℕ)
    (emailG : ℕ → Bool → Except String String) :
    ∀ (l : List ResultRecord) (j i : ℕ)
      (h : i < (annotateAll succ minS maxM emailG j l).length) (h2 : i < l.length),
      (annotateAll succ minS maxM emailG j l).get ⟨i, h⟩ =
        annotateRecord succ minS maxM emailG (j + i) (l.get ⟨i, h2⟩)
  | r :: rest, j, 0, _, _ => by simp [annotateAll]
  | r :: rest, j, i + 1, h, h2 => by
    have ih := annotateAll_get succ minS maxM emailG rest (j + 1) i
      (by simpa [annotateAll] using h) (by simpa using h2)
    simp only [annotateAll, List.get_cons_succ, ih]
    congr 1
    omega

/-- Annotation of a successful record sets the best-match flag, whether
or not the email call fails. -/
theorem annotateRecord_best (succ : List ResultRecord) (minS : ℚ) (maxM : ℕ)
    (emailG : ℕ → Bool → Except String String) (j : ℕ) (r : ResultRecord)
    (h : r.error = none) :
    (annotateRecord succ minS maxM emailG j r).is_best_match =
      some (bestMatchFlag succ minS maxM r) := by
  unfold annotateRecord
  rw [h]
  simp only [Option.isSome_none, Bool.false_eq_true, if_false]
  split <;> rfl

/-- The final batch has as many records as there are items. -/
theorem finalResults_length (items : List ResumeItem) (minS : ℚ) (maxM : ℕ)
    (emailG : ℕ → Bool → Except String String) :
    (finalResults items minS maxM emailG).length = items.length := by
  simp only [finalResults]
  split
  · simp
  · rw [annotateAll_length]
    simp

/-- Claim C1: a successful item is flagged best-match exactly when it
is acceptable, its score is the maximum over all successful items, and
its missing-skill count is minimal among successful items at that
maximum score; the flag stored by the batch processing agrees with this
rule, the three-item specification example flags the second item alone,
and exact ties on both criteria are all flagged. -/
theorem c1_best_match_rule :
    (∀ (recs : List ResultRecord) (minS : ℚ) (maxM : ℕ) (r : ResultRecord),
      r ∈ recs → r.error = none →
      (bestMatchFlag (sortByScoreDesc (successfulOf recs)) minS maxM r = true ↔
        (isAcceptable minS maxM r = true ∧
         (∀ s ∈ recs, s.error = none → s.score ≤ r.score) ∧
         (∀ s ∈ recs, s.error = none → s.score = r.score →
           r.missing_skills.length ≤ s.missing_skills.length)))) ∧
    (∀ (items : List ResumeItem) (minS : ℚ) (maxM : ℕ)
      (emailG : ℕ → Bool → Except String String) (i : ℕ)
      (h : i < (finalResults items minS maxM emailG).length)
      (h2 : i < items.length),
      (itemRecord (items.get ⟨i, h2⟩)).error = none →
      ((finalResults items minS maxM emailG).get ⟨i, h⟩).is_best_match =
        some (bestMatchFlag (sortByScoreDesc (successfulOf (items.map itemRecord)))
          minS maxM (itemRecord (items.get ⟨i, h2⟩)))) ∧
    (finalResults items3 70 2 emailOk).map (fun r => r.is_best_match) =
      [some false, some true, some false] ∧
    (finalResults itemsTie 70 2 emailOk).map (fun r => r.is_best_match) =
      [some true, some true] := by
  refine ⟨?_, ?_, rfl, rfl⟩
  · intro recs minS maxM r hr herr
    have hperm : List.Perm (sortByScoreDesc (successfulOf recs)) (successfulOf recs) :=
      sortByScoreDesc_perm (successfulOf recs)
    have hmem_sorted : ∀ s : ResultRecord,
        s ∈ sortByScoreDesc (successfulOf recs) ↔ s ∈ recs ∧ s.error = none := by
      intro s
      rw [hperm.mem_iff]
      unfold successfulOf
      rw [List.mem_filter]
      simp [Option.isNone_iff_eq_none]
    have hfmem : ∀ y : ℚ,
        y ∈ (((sortByScoreDesc (successfulOf recs)).filter
          (fun s => s.error.isNone)).map (fun s => s.score)) ↔
        ∃ s : ResultRecord, (s ∈ recs ∧ s.error = none) ∧ s.score = y := by
      intro y
      rw [List.mem_map]
      constructor
      · rintro ⟨s, hs, rfl⟩
        rw [List.mem_filter] at hs
        exact ⟨s, (hmem_sorted s).mp hs.1, rfl⟩
      · rintro ⟨s, hs, rfl⟩
        refine ⟨s, ?_, rfl⟩
        rw [List.mem_filter]
        refine ⟨(hmem_sorted s).mpr hs, ?_⟩
        simp [hs.2]
    have hne : (((sortByScoreDesc (successfulOf recs)).filter
        (fun s => s.error.isNone)).map (fun s => s.score)) ≠ [] := by
      intro hcontra
      have hin := (hfmem r.score).mpr ⟨r, ⟨hr, herr⟩, rfl⟩
      rw [hcontra] at hin
      simp at hin
    obtain ⟨best, hbest⟩ :=
      pyMaxList_nonempty (((sortByScoreDesc (successfulOf recs)).filter
        (fun s => s.error.isNone)).map (fun s => s.score)) hne
    obtain ⟨hbmem, hbub⟩ := pyMaxList_spec _ best hbest
    have hscore_iff : r.score = best ↔
        ∀ s ∈ recs, s.error = none → s.score ≤ r.score := by
      constructor
      · intro heq s hs hse
        have hin := (hfmem s.score).mpr ⟨s, ⟨hs, hse⟩, rfl⟩
        have := hbub _ hin
        linarith
      · intro hub
        obtain ⟨s0, hs0, hs0e⟩ := (hfmem best).mp hbmem
        have h1 : best ≤ r.score := hs0e ▸ hub s0 hs0.1 hs0.2
        have h2 : r.score ≤ best :=
          hbub _ ((hfmem r.score).mpr ⟨r, ⟨hr, herr⟩, rfl⟩)
        linarith
    have hcmem : ∀ s : ResultRecord,
        s ∈ candidatesWithBestScore (sortByScoreDesc (successfulOf recs)) best ↔
        (s ∈ recs ∧ s.error = none) ∧ s.score = best := by
      intro s
      unfold candidatesWithBestScore
      rw [List.mem_filter]
      rw [hmem_sorted s]
      simp [Option.isNone_iff_eq_none, and_assoc]
    obtain ⟨s0, hs0, hs0score⟩ := (hfmem best).mp hbmem
    have hcne : ((candidatesWithBestScore (sortByScoreDesc (successfulOf recs))
        best).map (fun s => s.missing_skills.length)) ≠ [] := by
      intro hcontra
      have hin : s0.missing_skills.length ∈
          ((candidatesWithBestScore (sortByScoreDesc (successfulOf recs))
            best).map (fun s => s.missing_skills.length)) :=
        List.mem_map_of_mem _ ((hcmem s0).mpr ⟨hs0, hs0score⟩)
      rw [hcontra] at hin
      simp at hin
    obtain ⟨minMiss, hmin⟩ := pyMinList_nonempty _ hcne
    obtain ⟨hminmem, hminlb⟩ := pyMinList_spec _ minMiss hmin
    have hmiss_iff : r.score = best →
        (r.missing_skills.length = minMiss ↔
          ∀ s ∈ recs, s.error = none → s.score = r.score →
            r.missing_skills.length ≤ s.missing_skills.length) := by
      intro hrb
      have hrc := (hcmem r).mpr ⟨⟨hr, herr⟩, hrb⟩
      constructor
      · intro heq s hs hse hsc
        have hin : s.missing_skills.length ∈
            ((candidatesWithBestScore (sortByScoreDesc (successfulOf recs))
              best).map (fun s => s.missing_skills.length)) :=
          List.mem_map_of_mem _ ((hcmem s).mpr ⟨⟨hs, hse⟩, by rw [hsc, hrb]⟩)
        have := hminlb _ hin
        omega
      · intro hlb
        obtain ⟨s1, hs1, hs1len⟩ := List.mem_map.mp hminmem
        have hs1r := (hcmem s1).mp hs1
        have h1 : r.missing_skills.length ≤ minMiss := by
          rw [← hs1len]
          exact hlb s1 hs1r.1.1 hs1r.1.2 (by rw [hs1r.2, hrb])
        have h2 : minMiss ≤ r.missing_skills.length :=
          hminlb _ (List.mem_map_of_mem _ hrc)
        omega
    have hbest2 : bestScoreOf (sortByScoreDesc (successfulOf recs)) = some best := hbest
    have hmin2 : minMissingOf (sortByScoreDesc (successfulOf recs)) best =
      some minMiss := hmin
    simp only [bestMatchFlag, hbest2, hmin2, Bool.and_eq_true, decide_eq_true_iff]
    constructor
    · rintro ⟨⟨hacc, hsc⟩, hlen⟩
      exact ⟨hacc, hscore_iff.mp hsc, (hmiss_iff hsc).mp hlen⟩
    · rintro ⟨hacc, hub, hlb⟩
      have hsc := hscore_iff.mpr hub
      exact ⟨⟨hacc, hsc⟩, (hmiss_iff hsc).mpr hlb⟩
  · intro items minS maxM emailG i h h2 hsucci
    have hmem : itemRecord (items.get ⟨i, h2⟩) ∈
        successfulOf (items.map itemRecord) := by
      unfold successfulOf
      rw [List.mem_filter]
      refine ⟨?_, by simpa using hsucci⟩
      rw [List.mem_map]
      exact ⟨items.get ⟨i, h2⟩, List.get_mem items i h2, rfl⟩
    have hnonempty :
        (sortByScoreDesc (successfulOf (items.map itemRecord))).isEmpty = false := by
      rw [List.isEmpty_eq_false]
      intro hcontra
      have hsm := (sortByScoreDesc_perm
        (successfulOf (items.map itemRecord))).mem_iff.mpr hmem
      rw [hcontra] at hsm
      simp at hsm
    have hlen2 : i < (annotateAll
        (sortByScoreDesc (successfulOf (items.map itemRecord))) minS maxM emailG 0
        (items.map itemRecord)).length := by
      rw [annotateAll_length]
      simpa using h2
    have hmap : i < (items.map itemRecord).length := by simpa using h2
    have hget := annotateAll_get
      (sortByScoreDesc (successfulOf (items.map itemRecord))) minS maxM emailG
      (items.map itemRecord) 0 i hlen2 hmap
    rw [Nat.zero_add] at hget
    have hrecmap : (items.map itemRecord).get ⟨i, hmap⟩ =
        itemRecord (items.get ⟨i, h2⟩) := by
      simp [List.get_map]
    rw [hrecmap] at hget
    have hfr0 : finalResults items minS maxM emailG =
        annotateAll (sortByScoreDesc (successfulOf (items.map itemRecord)))
          minS maxM emailG 0 (items.map itemRecord) := by
      simp only [finalResults]
      rw [if_neg (by simp [hnonempty])]
    rw [list_get_congr _ _ i h hlen2 hfr0, hget]
    rw [annotateRecord_best _ _ _ _ _ _ hsucci]

/-- Witness for C1 at a concrete one-record batch. -/
theorem c1_witness :
    bestMatchFlag (sortByScoreDesc (successfulOf
      [⟨"b.pdf", none, 90, [], "r", none, none, none, none⟩])) 70 2
      ⟨"b.pdf", none, 90, [], "r", none, none, none, none⟩ = true :=
  (c1_best_match_rule.1 [⟨"b.pdf", none, 90, [], "r", none, none, none, none⟩]
    70 2 ⟨"b.pdf", none, 90, [], "r", none, none, none, none⟩
    (by decide) rfl).mpr (by decide)

/-! ## C8: degradation and termination of the progress stream -/

/-- The per-item record carries the item filename. -/
theorem itemRecord_filename (it : ResumeItem) :
    (itemRecord it).filename = it.filename := by
  rcases it with ⟨f, o⟩
  cases o <;> rfl

/-- Annotation keeps the filename. -/
theorem annotateRecord_filename (succ : List ResultRecord) (minS : ℚ) (maxM : ℕ)
    (emailG : ℕ → Bool → Except String String) (j : ℕ) (r : ResultRecord) :
    (annotateRecord succ minS maxM emailG j r).filename = r.filename := by
  unfold annotateRecord
  split
  · rfl
  · dsimp only
    split <;> rfl

/-- Annotation leaves error records untouched. -/
theorem annotateRecord_error (succ : List ResultRecord) (minS : ℚ) (maxM : ℕ)
    (emailG : ℕ → Bool → Except String String) (j : ℕ) (r : ResultRecord)
    (h : r.error.isSome = true) :
    annotateRecord succ minS maxM emailG j r = r := by
  unfold annotateRecord
  rw [if_pos h]

/-- The record at position `i` of the final batch, in both the
no-successful-item and the annotated case. -/
theorem finalResults_get (items : List ResumeItem) (minS : ℚ) (maxM : ℕ)
    (emailG : ℕ → Bool → Except String String) (i : ℕ)
    (h : i < (finalResults items minS maxM emailG).length) (h2 : i < items.length) :
    (finalResults items minS maxM emailG).get ⟨i, h⟩ =
      if (sortByScoreDesc (successfulOf (items.map itemRecord))).isEmpty
      then itemRecord (items.get ⟨i, h2⟩)
      else annotateRecord (sortByScoreDesc (successfulOf (items.map itemRecord)))
        minS maxM emailG i (itemRecord (items.get ⟨i, h2⟩)) := by
  by_cases hemp : (sortByScoreDesc (successfulOf (items.map itemRecord))).isEmpty = true
  · rw [if_pos hemp]
    have hfr0 : finalResults items minS maxM emailG = items.map itemRecord := by
      simp only [finalResults]
      rw [if_pos hemp]
    rw [list_get_congr _ _ i h (by simpa using h2) hfr0]
    simp [List.get_map]
  · rw [if_neg hemp]
    have hfr0 : finalResults items minS maxM emailG =
        annotateAll (sortByScoreDesc (successfulOf (items.map itemRecord)))
          minS maxM emailG 0 (items.map itemRecord) := by
      simp only [finalResults]
      rw [if_neg hemp]
    have hlen2 : i < (annotateAll (sortByScoreDesc (successfulOf
        (items.map itemRecord))) minS maxM emailG 0 (items.map itemRecord)).length := by
      rw [annotateAll_length]
      simpa using h2
    rw [list_get_congr _ _ i h hlen2 hfr0]
    rw [annotateAll_get _ _ _ _ _ 0 i hlen2 (by simpa using h2)]
    rw [Nat.zero_add]
    congr 1
    simp [List.get_map]

/-- An event of item `i` of the batch is an event of the item loop. -/
theorem phase1Events_mem (n : ℕ) :
    ∀ (l : List ResumeItem) (j i : ℕ) (h2 : i < l.length) (ev : Event),
      ev ∈ itemEvents n (j + i) (l.get ⟨i, h2⟩) → ev ∈ phase1Events n j l
  | it :: rest, j, 0, h2, ev, hev => by
    rw [phase1Events]
    apply List.mem_append_left
    simpa using hev
  | it :: rest, j, i + 1, h2, ev, hev => by
    rw [phase1Events]
    apply List.mem_append_right
    apply phase1Events_mem n rest (j + 1) i (by simpa using h2) ev
    have heq : (j + 1) + i = j + (i + 1) := by omega
    rw [heq]
    simpa using hev

/-- The initial `processing` event of every item. -/
theorem processing_mem_itemEvents (n i : ℕ) (it : ResumeItem) :
    ({ etype := .progress, status := some "processing", current := some (i + 1),
       total := some n, filename := some it.filename,
       percentage := some (i * 90 / n), errorMsg := none, result := none,
       results := none } : Event) ∈ itemEvents n i it := by
  cases hout : it.outcome <;> simp [itemEvents, hout]

/-- The `error` event emitted when extraction fails. -/
theorem error_mem_itemEvents_extract (n i : ℕ) (it : ResumeItem) (e : String)
    (hout : it.outcome = .extractFail e) :
    ({ etype := .progress, status := some "error", current := some (i + 1),
       total := some n, filename := some it.filename,
       percentage := some (i * 90 / n), errorMsg := some e,
       result := some (itemRecord it), results := none } : Event) ∈ itemEvents n i it := by
  simp [itemEvents, hout]

/-- The `error` event emitted when the analysis call fails. -/
theorem error_mem_itemEvents_analyze (n i : ℕ) (it : ResumeItem) (e : String)
    (hout : it.outcome = .analyzeFail e) :
    ({ etype := .progress, status := some "error", current := some (i + 1),
       total := some n, filename := some it.filename,
       percentage := some ((2 * i + 1) * 45 / n), errorMsg := some e,
       result := some (itemRecord it), results := none } : Event) ∈ itemEvents n i it := by
  simp [itemEvents, hout]

/-- Every event of the item loop is a `progress` event. -/
theorem phase1Events_etype (n : ℕ) :
    ∀ (l : List ResumeItem) (j : ℕ) (ev : Event),
      ev ∈ phase1Events n j l → ev.etype = .progress
  | [], _, _, hev => by simp [phase1Events] at hev
  | it :: rest, j, ev, hev => by
    rw [phase1Events] at hev
    rcases List.mem_append.mp hev with hev | hev
    · cases hout : it.outcome with
      | extractFail e =>
        simp [itemEvents, hout] at hev
        rcases hev with rfl | rfl <;> rfl
      | analyzeFail e =>
        simp [itemEvents, hout] at hev
        rcases hev with rfl | rfl | rfl <;> rfl
      | analyzed a =>
        simp [itemEvents, hout] at hev
        rcases hev with rfl | rfl | rfl <;> rfl
    · exact phase1Events_etype n rest (j + 1) ev hev

/-- Every event of the email loop is a `progress` event. -/
theorem phase2Events_etype (succ : List ResultRecord) (n : ℕ) (minS : ℚ) (maxM : ℕ)
    (emailG : ℕ → Bool → Except String String) :
    ∀ (l : List ResultRecord) (j : ℕ) (ev : Event),
      ev ∈ phase2Events succ n minS maxM emailG j l → ev.etype = .progress
  | [], _, _, hev => by simp [phase2Events] at hev
  | r :: rest, j, ev, hev => by
    rw [phase2Events] at hev
    rcases List.mem_append.mp hev with hev | hev
    · by_cases herr : r.error.isSome = true
      · rw [if_pos herr] at hev
        simp at hev
      · rw [if_neg herr] at hev
        simp at hev
        rcases hev with rfl | rfl <;> rfl
    · exact phase2Events_etype succ n minS maxM emailG rest (j + 1) ev hev

/-- The event stream, unfolded. -/
theorem streamEvents_eq (items : List ResumeItem) (minS : ℚ) (maxM : ℕ)
    (emailG : ℕ → Bool → Except String String) :
    streamEvents items minS maxM emailG =
      (phase1Events items.length 0 items ++
       (if (sortByScoreDesc (successfulOf (items.map itemRecord))).isEmpty then []
        else phase2Events (sortByScoreDesc (successfulOf (items.map itemRecord)))
          items.length minS maxM emailG 0 (items.map itemRecord))) ++
      [completeEvent (finalResults items minS maxM emailG)] := by
  simp only [streamEvents]

/-- A failed extraction degrades the record to the fixed error shape. -/
theorem itemRecord_fail_extract (it : ResumeItem) (e : String)
    (h : it.outcome = .extractFail e) :
    itemRecord it =
      { filename := it.filename, error := some e, score := 0, missing_skills := [],
        remarks := "Error processing resume", is_best_match := none, email := none,
        email_type := none, email_error := none } := by
  simp [itemRecord, h]

/-- A failed analysis degrades the record to the fixed error shape. -/
theorem itemRecord_fail_analyze (it : ResumeItem) (e : String)
    (h : it.outcome = .analyzeFail e) :
    itemRecord it =
      { filename := it.filename, error := some e, score := 0, missing_skills := [],
        remarks := "Error processing resume", is_best_match := none, email := none,
        email_type := none, email_error := none } := by
  simp [itemRecord, h]

/-- Claim C8: a per-item failure degrades that item only (score `0`,
no missing skills, explanatory remark) and emits an `error`-status
progress event for it; later items still process; and the stream ends
with exactly one `complete` event at percentage `100` carrying the full
result list in input order, even if every item failed. -/
theorem c8_stream_degrades_and_completes (items : List ResumeItem) (minS : ℚ)
    (maxM : ℕ) (emailG : ℕ → Bool → Except String String) :
    (finalResults items minS maxM emailG).length = items.length ∧
    (∀ (i : ℕ) (h : i < (finalResults items minS maxM emailG).length)
       (h2 : i < items.length),
      ((finalResults items minS maxM emailG).get ⟨i, h⟩).filename =
        (items.get ⟨i, h2⟩).filename) ∧
    (∀ (i : ℕ) (h2 : i < items.length) (e : String),
      ((items.get ⟨i, h2⟩).outcome = .extractFail e ∨
       (items.get ⟨i, h2⟩).outcome = .analyzeFail e) →
      (∀ h : i < (finalResults items minS maxM emailG).length,
        (finalResults items minS maxM emailG).get ⟨i, h⟩ =
          { filename := (items.get ⟨i, h2⟩).filename, error := some e, score := 0,
            missing_skills := [], remarks := "Error processing resume",
            is_best_match := none, email := none, email_type := none,
            email_error := none }) ∧
      (∃ ev ∈ streamEvents items minS maxM emailG,
        ev.etype = .progress ∧ ev.status = some "error" ∧
        ev.current = some (i + 1) ∧ ev.errorMsg = some e)) ∧
    (∀ i : ℕ, i < items.length →
      ∃ ev ∈ streamEvents items minS maxM emailG,
        ev.etype = .progress ∧ ev.status = some "processing" ∧
        ev.current = some (i + 1)) ∧
    (streamEvents items minS maxM emailG).getLast? =
      some (completeEvent (finalResults items minS maxM emailG)) ∧
    ((streamEvents items minS maxM emailG).filter
      (fun ev => ev.etype == .complete)).length = 1 := by
  refine ⟨finalResults_length items minS maxM emailG, ?_, ?_, ?_, ?_, ?_⟩
  · intro i h h2
    rw [finalResults_get items minS maxM emailG i h h2]
    split
    · exact itemRecord_filename _
    · rw [annotateRecord_filename]
      exact itemRecord_filename _
  · intro i h2 e hout
    have hrec : itemRecord (items.get ⟨i, h2⟩) =
        { filename := (items.get ⟨i, h2⟩).filename, error := some e, score := 0,
          missing_skills := [], remarks := "Error processing resume",
          is_best_match := none, email := none, email_type := none,
          email_error := none } := by
      rcases hout with hout | hout
      · exact itemRecord_fail_extract _ e hout
      · exact itemRecord_fail_analyze _ e hout
    constructor
    · intro h
      rw [finalResults_get items minS maxM emailG i h h2]
      split
      · exact hrec
      · rw [annotateRecord_error _ _ _ _ _ _ (by rw [hrec]; rfl)]
        exact hrec
    · rcases hout with hout | hout
      · have hmem2 : ({ etype := .progress, status := some "error", current := some (i + 1), total := some items.length, filename := some (items.get ⟨i, h2⟩).filename, percentage := some (i * 90 / items.length), errorMsg := some e, result := some (itemRecord (items.get ⟨i, h2⟩)), results := none } : Event) ∈ streamEvents items minS maxM emailG := by
          rw [streamEvents_eq]
          apply List.mem_append_left
          apply List.mem_append_left
          apply phase1Events_mem items.length items 0 i h2
          rw [Nat.zero_add]
          exact error_mem_itemEvents_extract items.length i _ e hout
        exact ⟨_, hmem2, rfl, rfl, rfl, rfl⟩
      · have hmem2 : ({ etype := .progress, status := some "error", current := some (i + 1), total := some items.length, filename := some (items.get ⟨i, h2⟩).filename, percentage := some ((2 * i + 1) * 45 / items.length), errorMsg := some e, result := some (itemRecord (items.get ⟨i, h2⟩)), results := none } : Event) ∈ streamEvents items minS maxM emailG := by
          rw [streamEvents_eq]
          apply List.mem_append_left
          apply List.mem_append_left
          apply phase1Events_mem items.length items 0 i h2
          rw [Nat.zero_add]
          exact error_mem_itemEvents_analyze items.length i _ e hout
        exact ⟨_, hmem2, rfl, rfl, rfl, rfl⟩
  · intro i h2
    have hmem2 : ({ etype := .progress, status := some "processing", current := some (i + 1), total := some items.length, filename := some (items.get ⟨i, h2⟩).filename, percentage := some (i * 90 / items.length), errorMsg := none, result := none, results := none } : Event) ∈ streamEvents items minS maxM emailG := by
      rw [streamEvents_eq]
      apply List.mem_append_left
      apply List.mem_append_left
      apply phase1Events_mem items.length items 0 i h2
      rw [Nat.zero_add]
      exact processing_mem_itemEvents items.length i _
    exact ⟨_, hmem2, rfl, rfl, rfl⟩
  · rw [streamEvents_eq, List.getLast?_concat]
  · rw [streamEvents_eq, List.filter_append, List.filter_append]
    have hp1 : (phase1Events items.length 0 items).filter
        (fun ev => ev.etype == .complete) = [] := by
      rw [List.filter_eq_nil_iff]
      intro ev hev
      rw [phase1Events_etype items.length items 0 ev hev]
      decide
    have hmid : ((if (sortByScoreDesc (successfulOf (items.map itemRecord))).isEmpty
        then [] else phase2Events (sortByScoreDesc (successfulOf
          (items.map itemRecord))) items.length minS maxM emailG 0
          (items.map itemRecord)).filter (fun ev => ev.etype == .complete)) = [] := by
      rw [List.filter_eq_nil_iff]
      intro ev hev
      split at hev
      · simp at hev
      · rw [phase2Events_etype _ _ _ _ _ _ 0 ev hev]
        decide
    rw [hp1, hmid]
    rfl

/-- Witness for C8: in the mixed batch the failing first item emits an
`error` event. -/
theorem c8_witness :
    ∃ ev ∈ streamEvents itemsMixed 70 3 emailOk,
      ev.etype = .progress ∧ ev.status = some "error" ∧
      ev.current = some 1 ∧ ev.errorMsg = some "boom" :=
  ((c8_stream_degrades_and_completes itemsMixed 70 3 emailOk).2.2.1 0 (by decide)
    "boom" (Or.inl rfl)).2

/-! ## C9: percentage range and monotonicity -/

/-- Lowering the head of a chain of inequalities keeps it a chain. -/
theorem chain_weaken (x y : ℕ) (l : List ℕ) (h : x ≤ y)
    (hc : List.Chain' (fun p q => p ≤ q) (y :: l)) :
    List.Chain' (fun p q => p ≤ q) (x :: l) := by
  cases l with
  | nil => simp
  | cons z zs =>
    rw [List.chain'_cons] at hc ⊢
    exact ⟨le_trans h hc.1, hc.2⟩

/-- The percentages of the item loop from index `i` form a chain above
the sentinel `i * 90 / n`. -/
theorem phase1_chain (n : ℕ) :
    ∀ (l : List ResumeItem) (i : ℕ),
      List.Chain' (fun p q => p ≤ q) ((i * 90 / n) ::
        (phase1Events n i l).filterMap (fun ev => ev.percentage))
  | [], i => by simp [phase1Events]
  | it :: rest, i => by
    have ih := phase1_chain n rest (i + 1)
    have hpa : i * 90 / n ≤ (2 * i + 1) * 45 / n :=
      Nat.div_le_div_right (by omega)
    have had : (2 * i + 1) * 45 / n ≤ (i + 1) * 90 / n :=
      Nat.div_le_div_right (by omega)
    have hpd : i * 90 / n ≤ (i + 1) * 90 / n :=
      Nat.div_le_div_right (by omega)
    rw [phase1Events, List.filterMap_append]
    cases hout : it.outcome with
    | extractFail e =>
      simp only [itemEvents, hout, List.filterMap_cons, List.filterMap_nil,
        List.cons_append, List.nil_append]
      exact List.Chain'.cons (le_refl _)
        (List.Chain'.cons (le_refl _) (chain_weaken _ _ _ hpd ih))
    | analyzeFail e =>
      simp only [itemEvents, hout, List.filterMap_cons, List.filterMap_nil,
        List.cons_append, List.nil_append]
      exact List.Chain'.cons (le_refl _) (List.Chain'.cons hpa
        (List.Chain'.cons (le_refl _) (chain_weaken _ _ _ had ih)))
    | analyzed a =>
      simp only [itemEvents, hout, List.filterMap_cons, List.filterMap_nil,
        List.cons_append, List.nil_append]
      exact List.Chain'.cons (le_refl _) (List.Chain'.cons hpa
        (List.Chain'.cons had ih))

/-- Every item-loop percentage is at most 90. -/
theorem phase1_pcts_le (n : ℕ) :
    ∀ (l : List ResumeItem) (i : ℕ), i + l.length ≤ n →
      ∀ p ∈ (phase1Events n i l).filterMap (fun ev => ev.percentage), p ≤ 90
  | [], _, _ => by simp [phase1Events]
  | it :: rest, i, hb => by
    intro p hp
    rw [phase1Events, List.filterMap_append] at hp
    rcases List.mem_append.mp hp with hp | hp
    · have hn : 0 < n := by
        simp [List.length_cons] at hb
        omega
      have h90 : n * 90 / n = 90 := Nat.mul_div_cancel_left 90 hn
      have hlen : i + 1 ≤ n := by
        simp [List.length_cons] at hb
        omega
      have hbd1 : i * 90 / n ≤ n * 90 / n := Nat.div_le_div_right (by omega)
      have hbd2 : (2 * i + 1) * 45 / n ≤ n * 90 / n := Nat.div_le_div_right (by omega)
      have hbd3 : (i + 1) * 90 / n ≤ n * 90 / n := Nat.div_le_div_right (by omega)
      rw [h90] at hbd1 hbd2 hbd3
      cases hout : it.outcome with
      | extractFail e =>
        simp [itemEvents, hout] at hp
        rcases hp with rfl | rfl <;> exact hbd1
      | analyzeFail e =>
        simp [itemEvents, hout] at hp
        rcases hp with rfl | rfl
        · exact hbd1
        · exact hbd2
      | analyzed a =>
        simp [itemEvents, hout] at hp
        rcases hp with rfl | rfl | rfl
        · exact hbd1
        · exact hbd2
        · exact hbd3
    · refine phase1_pcts_le n rest (i + 1) ?_ p hp
      simp [List.length_cons] at hb
      omega

/-- The percentages of the email loop from index `j` form a chain above
the sentinel `90 + j * 10 / n`. -/
theorem phase2_chain (succ : List ResultRecord) (n : ℕ) (minS : ℚ) (maxM : ℕ)
    (emailG : ℕ → Bool → Except String String) :
    ∀ (l : List ResultRecord) (j : ℕ),
      List.Chain' (fun p q => p ≤ q) ((90 + j * 10 / n) ::
        (phase2Events succ n minS maxM emailG j l).filterMap (fun ev => ev.percentage))
  | [], j => by simp [phase2Events]
  | r :: rest, j => by
    have ih := phase2_chain succ n minS maxM emailG rest (j + 1)
    have hgc : 90 + j * 10 / n ≤ 90 + (j + 1) * 10 / n :=
      Nat.add_le_add_left (Nat.div_le_div_right (by omega)) 90
    rw [phase2Events, List.filterMap_append]
    by_cases herr : r.error.isSome = true
    · rw [if_pos herr]
      simp only [List.filterMap_nil, List.nil_append]
      exact chain_weaken _ _ _ hgc ih
    · rw [if_neg herr]
      simp only [List.filterMap_cons, List.filterMap_nil, List.cons_append,
        List.nil_append]
      exact List.Chain'.cons (le_refl _) (List.Chain'.cons hgc ih)

/-- Every email-loop percentage lies in `[90, 100]`. -/
theorem phase2_pcts_bounds (succ : List ResultRecord) (n : ℕ) (minS : ℚ) (maxM : ℕ)
    (emailG : ℕ → Bool → Except String String) :
    ∀ (l : List ResultRecord) (j : ℕ), j + l.length ≤ n →
      ∀ p ∈ (phase2Events succ n minS maxM emailG j l).filterMap
        (fun ev => ev.percentage), 90 ≤ p ∧ p ≤ 100
  | [], _, _ => by simp [phase2Events]
  | r :: rest, j, hb => by
    intro p hp
    rw [phase2Events, List.filterMap_append] at hp
    rcases List.mem_append.mp hp with hp | hp
    · have hn : 0 < n := by
        simp [List.length_cons] at hb
        omega
      have h10 : n * 10 / n = 10 := Nat.mul_div_cancel_left 10 hn
      have hj1 : j + 1 ≤ n := by
        simp [List.length_cons] at hb
        omega
      by_cases herr : r.error.isSome = true
      · rw [if_pos herr] at hp
        simp at hp
      · rw [if_neg herr] at hp
        simp at hp
        have hd1 : j * 10 / n ≤ n * 10 / n := Nat.div_le_div_right (by omega)
        have hd2 : (j + 1) * 10 / n ≤ n * 10 / n := Nat.div_le_div_right (by omega)
        rw [h10] at hd1 hd2
        rcases hp with rfl | rfl
        · exact ⟨Nat.le_add_right 90 _, by omega⟩
        · exact ⟨Nat.le_add_right 90 _, by omega⟩
    · refine phase2_pcts_bounds succ n minS maxM emailG rest (j + 1) ?_ p hp
      simp [List.length_cons] at hb
      omega

/-- Claim C9: every percentage carried by an emitted progress or
complete event lies in `[0, 100]` (percentages are naturals, so only
the upper bound is substantive) and the percentages of successive
events are monotonically non-decreasing. -/
theorem c9_percentages_monotone (items : List ResumeItem) (minS : ℚ) (maxM : ℕ)
    (emailG : ℕ → Bool → Except String String) :
    List.Chain' (fun p q => p ≤ q)
      ((streamEvents items minS maxM emailG).filterMap (fun ev => ev.percentage)) ∧
    (∀ p ∈ (streamEvents items minS maxM emailG).filterMap
      (fun ev => ev.percentage), p ≤ 100) := by
  rw [streamEvents_eq, List.filterMap_append, List.filterMap_append]
  have hce : ([completeEvent (finalResults items minS maxM emailG)].filterMap
      (fun ev => ev.percentage)) = [100] := rfl
  rw [hce]
  have hch1 : List.Chain' (fun p q => p ≤ q)
      ((phase1Events items.length 0 items).filterMap (fun ev => ev.percentage)) :=
    (phase1_chain items.length items 0).tail
  have hb1 : ∀ p ∈ (phase1Events items.length 0 items).filterMap
      (fun ev => ev.percentage), p ≤ 90 :=
    phase1_pcts_le items.length items 0 (by omega)
  by_cases hemp : (sortByScoreDesc (successfulOf (items.map itemRecord))).isEmpty = true
  · rw [if_pos hemp]
    simp only [List.filterMap_nil, List.append_nil]
    constructor
    · rw [List.chain'_append]
      refine ⟨hch1, by simp, ?_⟩
      intro x hx y hy
      have hx2 := hb1 x (List.mem_of_mem_getLast? hx)
      simp at hy
      omega
    · intro p hp
      rcases List.mem_append.mp hp with hp | hp
      · exact le_trans (hb1 p hp) (by omega)
      · simp at hp
        omega
  · rw [if_neg hemp]
    have hch2 : List.Chain' (fun p q => p ≤ q)
        ((phase2Events (sortByScoreDesc (successfulOf (items.map itemRecord)))
          items.length minS maxM emailG 0 (items.map itemRecord)).filterMap
          (fun ev => ev.percentage)) :=
      (phase2_chain (sortByScoreDesc (successfulOf (items.map itemRecord)))
        items.length minS maxM emailG (items.map itemRecord) 0).tail
    have hb2 : ∀ p ∈ (phase2Events (sortByScoreDesc (successfulOf
        (items.map itemRecord))) items.length minS maxM emailG 0
        (items.map itemRecord)).filterMap (fun ev => ev.percentage),
        90 ≤ p ∧ p ≤ 100 :=
      phase2_pcts_bounds (sortByScoreDesc (successfulOf (items.map itemRecord)))
        items.length minS maxM emailG (items.map itemRecord) 0 (by simp)
    constructor
    · rw [List.chain'_append, List.chain'_append]
      refine ⟨⟨hch1, hch2, ?_⟩, by simp, ?_⟩
      · intro x hx y hy
        have hx2 := hb1 x (List.mem_of_mem_getLast? hx)
        have hy2 := (hb2 y (List.mem_of_mem_head? hy)).1
        omega
      · intro x hx y hy
        simp at hy
        subst hy
        rcases List.mem_append.mp (List.mem_of_mem_getLast? hx) with hx3 | hx3
        · exact le_trans (hb1 x hx3) (by omega)
        · exact (hb2 x hx3).2
    · intro p hp
      rcases List.mem_append.mp hp with hp | hp
      · rcases List.mem_append.mp hp with hp2 | hp2
        · exact le_trans (hb1 p hp2) (by omega)
        · exact (hb2 p hp2).2
      · simp at hp
        omega

/-- Witness for C9 at the concrete mixed batch: the final percentage
100 is within range. -/
theorem c9_witness : (100 : ℕ) ≤ 100 :=
  (c9_percentages_monotone itemsMixed 70 3 emailOk).2 100 (by decide)

end Matchwise
